import Mathlib

/- Verification of the training core of src/train.py (class
ShallowNeuralNetwork, its train loop, and the module-level model
selection loop).  Float tensors are modelled as real matrices; the
cupy/numpy dynamic-shape semantics relevant to error handling and
persistence are modelled separately at the end of the file. -/

set_option maxHeartbeats 1000000

noncomputable section

namespace TrainPy

open scoped Matrix

/-- Tensors of the source are 2-D float arrays; statically well-shaped
code is modelled with real matrices indexed by their dimensions. -/
abbrev Mat (m n : ℕ) : Type := Matrix (Fin m) (Fin n) ℝ

/-- `self.beta1 = 0.9`, hardcoded in `__init__`. -/
def beta1 : ℝ := 0.9

/-- `self.beta2 = 0.999`, hardcoded in `__init__`. -/
def beta2 : ℝ := 0.999

/-- `self.epsilon = 1e-8`, hardcoded in `__init__`. -/
def epsilon : ℝ := 1e-8

/-- State of a `ShallowNeuralNetwork` instance: the four parameter
tensors, the eight Adam moment accumulators and the shared step counter
`t`.  The declared sizes `input_size`, `hidden_size`, `output_size` are
the type indices `nin`, `nhid`, `nout`.  The forward-pass caches
`z1/a1/output` are not stored: `backward` is only ever called
immediately after `forward` on the same batch (as `train` does), so the
model recomputes the cached values from the batch. -/
structure Network (nin nhid nout : ℕ) where
  learning_rate : ℝ
  t : ℕ
  W1 : Mat nhid nin
  b1 : Mat nhid 1
  W2 : Mat nout nhid
  b2 : Mat nout 1
  mW1 : Mat nhid nin
  vW1 : Mat nhid nin
  mb1 : Mat nhid 1
  vb1 : Mat nhid 1
  mW2 : Mat nout nhid
  vW2 : Mat nout nhid
  mb2 : Mat nout 1
  vb2 : Mat nout 1

/-- `__init__`: the two weight matrices come from `cp.random.randn`
(the random draw is supplied by the caller here), biases are zero,
Adam moments are zero, `t = 0`. -/
def mkNetwork {nin nhid nout : ℕ} (lr : ℝ) (W1 : Mat nhid nin) (W2 : Mat nout nhid) :
    Network nin nhid nout :=
  { learning_rate := lr
    t := 0
    W1 := W1
    b1 := 0
    W2 := W2
    b2 := 0
    mW1 := 0
    vW1 := 0
    mb1 := 0
    vb1 := 0
    mW2 := 0
    vW2 := 0
    mb2 := 0
    vb2 := 0 }

/-- A snapshot of the four parameter tensors (a checkpoint). -/
structure Params (nin nhid nout : ℕ) where
  W1 : Mat nhid nin
  b1 : Mat nhid 1
  W2 : Mat nout nhid
  b2 : Mat nout 1

def getParams {nin nhid nout : ℕ} (net : Network nin nhid nout) : Params nin nhid nout :=
  ⟨net.W1, net.b1, net.W2, net.b2⟩

def setParams {nin nhid nout : ℕ} (net : Network nin nhid nout) (p : Params nin nhid nout) :
    Network nin nhid nout :=
  { net with
    W1 := p.W1
    b1 := p.b1
    W2 := p.W2
    b2 := p.b2 }

/-- Numpy broadcasting of a column vector over `n` columns, as in
`cp.dot(W1, x) + b1`. -/
def bcast {m : ℕ} (b : Mat m 1) (n : ℕ) : Mat m n := fun p _ => b p 0

/-- Elementwise `cp.tanh`. -/
def tanhM {m n : ℕ} (A : Mat m n) : Mat m n := fun p q => Real.tanh (A p q)

/-- `self.z1 = cp.dot(self.W1, x) + self.b1`. -/
def z1of {nin nhid nout nN : ℕ} (net : Network nin nhid nout) (x : Mat nin nN) : Mat nhid nN :=
  net.W1 * x + bcast net.b1 nN

/-- `self.a1 = cp.tanh(self.z1)`. -/
def a1of {nin nhid nout nN : ℕ} (net : Network nin nhid nout) (x : Mat nin nN) : Mat nhid nN :=
  tanhM (z1of net x)

/-- `forward`: `z2 = cp.dot(W2, a1) + b2`, returned directly as the
output (identity output activation). -/
def forward {nin nhid nout nN : ℕ} (net : Network nin nhid nout) (x : Mat nin nN) : Mat nout nN :=
  net.W2 * a1of net x + bcast net.b2 nN

/-- `predict` just calls `forward` and returns the output. -/
def predict {nin nhid nout nN : ℕ} (net : Network nin nhid nout) (x : Mat nin nN) : Mat nout nN :=
  forward net x

/-- `sklearn.metrics.mean_squared_error`: the mean of the squared
entry differences, over all entries. -/
def mse {m n : ℕ} (A B : Mat m n) : ℝ :=
  (∑ p, ∑ q, (A p q - B p q) ^ 2) / ((m : ℝ) * (n : ℝ))

/-- `dz2 = self.output - y` in `backward`. -/
def dz2of {nin nhid nout nN : ℕ} (net : Network nin nhid nout) (x : Mat nin nN)
    (y : Mat nout nN) : Mat nout nN :=
  forward net x - y

/-- `dW2 = (1/m) * cp.dot(dz2, self.a1.T)`. -/
def dW2of {nin nhid nout nN : ℕ} (net : Network nin nhid nout) (x : Mat nin nN)
    (y : Mat nout nN) : Mat nout nhid :=
  (1 / (nN : ℝ)) • (dz2of net x y * (a1of net x)ᵀ)

/-- `db2 = (1/m) * cp.sum(dz2, axis=1, keepdims=True)`. -/
def db2of {nin nhid nout nN : ℕ} (net : Network nin nhid nout) (x : Mat nin nN)
    (y : Mat nout nN) : Mat nout 1 :=
  fun p _ => (1 / (nN : ℝ)) * ∑ j, dz2of net x y p j

/-- `dz1 = cp.dot(self.W2.T, dz2) * (1 - cp.power(self.a1, 2))`. -/
def dz1of {nin nhid nout nN : ℕ} (net : Network nin nhid nout) (x : Mat nin nN)
    (y : Mat nout nN) : Mat nhid nN :=
  fun r j => ((net.W2)ᵀ * dz2of net x y) r j * (1 - a1of net x r j ^ 2)

/-- `dW1 = (1/m) * cp.dot(dz1, x.T)`. -/
def dW1of {nin nhid nout nN : ℕ} (net : Network nin nhid nout) (x : Mat nin nN)
    (y : Mat nout nN) : Mat nhid nin :=
  (1 / (nN : ℝ)) • (dz1of net x y * xᵀ)

/-- `db1 = (1/m) * cp.sum(dz1, axis=1, keepdims=True)`. -/
def db1of {nin nhid nout nN : ℕ} (net : Network nin nhid nout) (x : Mat nin nN)
    (y : Mat nout nN) : Mat nhid 1 :=
  fun r _ => (1 / (nN : ℝ)) * ∑ j, dz1of net x y r j

/-- `m / (1 - beta1 ** t)` — the bias-corrected first moment. -/
def mhatOf {a b : ℕ} (m : Mat a b) (t : ℕ) : Mat a b :=
  fun p q => m p q / (1 - beta1 ^ t)

/-- `v / (1 - beta2 ** t)` — the bias-corrected second moment. -/
def vhatOf {a b : ℕ} (v : Mat a b) (t : ℕ) : Mat a b :=
  fun p q => v p q / (1 - beta2 ^ t)

/-- The inner `adam_update` helper of `update_weights`: returns the new
first moment, the new second moment, and `m_hat / (sqrt(v_hat) + eps)`. -/
def adam_update {a b : ℕ} (m v grad : Mat a b) (t : ℕ) : Mat a b × Mat a b × Mat a b :=
  let m2 : Mat a b := fun p q => beta1 * m p q + (1 - beta1) * grad p q
  let v2 : Mat a b := fun p q => beta2 * v p q + (1 - beta2) * grad p q ^ 2
  (m2, v2, fun p q => mhatOf m2 t p q / (Real.sqrt (vhatOf v2 t p q) + epsilon))

/-- `update_weights`: `self.t += 1` first, then one `adam_update` per
parameter tensor, all with the same incremented `t`, then the four
in-place parameter updates `P -= lr * step`. -/
def update_weights {nin nhid nout : ℕ} (net : Network nin nhid nout)
    (dW1 : Mat nhid nin) (db1 : Mat nhid 1) (dW2 : Mat nout nhid) (db2 : Mat nout 1) :
    Network nin nhid nout :=
  let t2 := net.t + 1
  let uW1 := adam_update net.mW1 net.vW1 dW1 t2
  let ub1 := adam_update net.mb1 net.vb1 db1 t2
  let uW2 := adam_update net.mW2 net.vW2 dW2 t2
  let ub2 := adam_update net.mb2 net.vb2 db2 t2
  { net with
    t := t2
    mW1 := uW1.1
    vW1 := uW1.2.1
    mb1 := ub1.1
    vb1 := ub1.2.1
    mW2 := uW2.1
    vW2 := uW2.2.1
    mb2 := ub2.1
    vb2 := ub2.2.1
    W1 := net.W1 - net.learning_rate • uW1.2.2
    b1 := net.b1 - net.learning_rate • ub1.2.2
    W2 := net.W2 - net.learning_rate • uW2.2.2
    b2 := net.b2 - net.learning_rate • ub2.2.2 }

/-- `backward(x, y)`: the analytic gradients followed by
`self.update_weights(dW1, db1, dW2, db2)`. -/
def backward {nin nhid nout nN : ℕ} (net : Network nin nhid nout) (x : Mat nin nN)
    (y : Mat nout nN) : Network nin nhid nout :=
  update_weights net (dW1of net x y) (db1of net x y) (dW2of net x y) (db2of net x y)

/-- Modelled from the spec (§4.2): the Adam rule for one parameter
tensor `P` with gradient `G` at step `t`, written exactly as the spec
states it: `m := β1·m + (1−β1)·G`, `v := β2·v + (1−β2)·G²`,
`m_hat = m/(1−β1^t)`, `v_hat = v/(1−β2^t)`,
`P := P − lr·m_hat/(sqrt(v_hat)+ε)`.  Returns `(P, m, v)` updated. -/
def adamSpecRule {a b : ℕ} (P m v G : Mat a b) (lr : ℝ) (t : ℕ) :
    Mat a b × Mat a b × Mat a b :=
  let m2 : Mat a b := fun p q => beta1 * m p q + (1 - beta1) * G p q
  let v2 : Mat a b := fun p q => beta2 * v p q + (1 - beta2) * G p q ^ 2
  let mhat : Mat a b := fun p q => m2 p q / (1 - beta1 ^ t)
  let vhat : Mat a b := fun p q => v2 p q / (1 - beta2 ^ t)
  (fun p q => P p q - lr * (mhat p q / (Real.sqrt (vhat p q) + epsilon)), m2, v2)

/-- A dynamically shaped 2-D array (cupy/numpy ndarray): its shape and
its entries; entries outside the shape are irrelevant junk. -/
structure DynM where
  rows : ℕ
  cols : ℕ
  ent : ℕ → ℕ → ℝ

/-- `cp.dot`: defined when the inner dimensions agree; otherwise the
library raises its own dimension-mismatch error (modelled as `none`).
There is no separate shape pre-validation anywhere in the source. -/
def dDot (A B : DynM) : Option DynM :=
  if A.cols = B.rows then
    some ⟨A.rows, B.cols, fun p q => ∑ r in Finset.range A.cols, A.ent p r * B.ent r q⟩
  else none

/-- One axis of numpy broadcasting: the sizes agree, or one of them
is 1. -/
def bAxis (a b : ℕ) : Option ℕ :=
  if a = b then some a else if a = 1 then some b else if b = 1 then some a else none

/-- An elementwise binary array op with numpy broadcasting. -/
def dZip (f : ℝ → ℝ → ℝ) (A B : DynM) : Option DynM :=
  match bAxis A.rows B.rows, bAxis A.cols B.cols with
  | some r, some c =>
      some ⟨r, c, fun p q =>
        f (A.ent (if A.rows = 1 then 0 else p) (if A.cols = 1 then 0 else q))
          (B.ent (if B.rows = 1 then 0 else p) (if B.cols = 1 then 0 else q))⟩
  | _, _ => none

def dAdd (A B : DynM) : Option DynM := dZip (fun a b => a + b) A B

def dSub (A B : DynM) : Option DynM := dZip (fun a b => a - b) A B

def dMul (A B : DynM) : Option DynM := dZip (fun a b => a * b) A B

/-- Elementwise `cp.tanh`. -/
def dTanh (A : DynM) : DynM := ⟨A.rows, A.cols, fun p q => Real.tanh (A.ent p q)⟩

/-- `.T`. -/
def dT (A : DynM) : DynM := ⟨A.cols, A.rows, fun p q => A.ent q p⟩

/-- `cp.sum(·, axis=1, keepdims=True)`. -/
def dSum1 (A : DynM) : DynM := ⟨A.rows, 1, fun p _ => ∑ q in Finset.range A.cols, A.ent p q⟩

/-- Multiplication by a scalar (always broadcasts). -/
def dSmul (c : ℝ) (A : DynM) : DynM := ⟨A.rows, A.cols, fun p q => c * A.ent p q⟩

/-- `1 - cp.power(a1, 2)` (scalar broadcast always succeeds). -/
def dOneSubSq (A : DynM) : DynM := ⟨A.rows, A.cols, fun p q => 1 - A.ent p q ^ 2⟩

/-- A `ShallowNeuralNetwork` instance with dynamically shaped tensors:
declared sizes, parameters, Adam moments and the step counter. -/
structure DynNet where
  input_size : ℕ
  hidden_size : ℕ
  output_size : ℕ
  learning_rate : ℝ
  t : ℕ
  W1 : DynM
  b1 : DynM
  W2 : DynM
  b2 : DynM
  mW1 : DynM
  vW1 : DynM
  mb1 : DynM
  vb1 : DynM
  mW2 : DynM
  vW2 : DynM
  mb2 : DynM
  vb2 : DynM

/-- The parameter shapes `initialize_weights` produces from the
declared sizes. -/
def wfNet (n : DynNet) : Prop :=
  n.W1.rows = n.hidden_size ∧ n.W1.cols = n.input_size ∧
  n.b1.rows = n.hidden_size ∧ n.b1.cols = 1 ∧
  n.W2.rows = n.output_size ∧ n.W2.cols = n.hidden_size ∧
  n.b2.rows = n.output_size ∧ n.b2.cols = 1

/-- `forward` on dynamic tensors: `z1 = dot(W1,x)+b1`,
`a1 = tanh(z1)`, `output = dot(W2,a1)+b2`, with no shape validation of
its own. -/
def dynForward (n : DynNet) (x : DynM) : Option DynM :=
  (dDot n.W1 x).bind fun z1p =>
  (dAdd z1p n.b1).bind fun z1 =>
  (dDot n.W2 (dTanh z1)).bind fun z2p =>
  dAdd z2p n.b2

/-- The cached `a1` of a `forward` call on `x`. -/
def dynA1 (n : DynNet) (x : DynM) : Option DynM :=
  (dDot n.W1 x).bind fun z1p =>
  (dAdd z1p n.b1).map dTanh

/-- `backward`'s gradient computation on dynamic tensors, the cached
`a1`/`output` recomputed from `x` (as in `train`, `backward` runs right
after `forward` on the same batch).  Returns `(dW1, db1, dW2, db2)`. -/
def dynGrads (n : DynNet) (x y : DynM) : Option (DynM × DynM × DynM × DynM) :=
  (dynA1 n x).bind fun a1 =>
  (dDot n.W2 a1).bind fun z2p =>
  (dAdd z2p n.b2).bind fun out =>
  (dSub out y).bind fun dz2 =>
  (dDot dz2 (dT a1)).bind fun dW2p =>
  (dDot (dT n.W2) dz2).bind fun dz1p =>
  (dMul dz1p (dOneSubSq a1)).bind fun dz1 =>
  (dDot dz1 (dT x)).bind fun dW1p =>
  some (dSmul (1 / (x.cols : ℝ)) dW1p, dSmul (1 / (x.cols : ℝ)) (dSum1 dz1),
    dSmul (1 / (x.cols : ℝ)) dW2p, dSmul (1 / (x.cols : ℝ)) (dSum1 dz2))

/-- An `.npz` archive: a partial map from field names to arrays;
`data[key]` raises the library `KeyError` when the field is absent. -/
def NpzFile : Type := String → Option DynM

/-- `load(file_path)`: assigns the file's `W1`, `b1`, `W2`, `b2`
arrays to the four parameter tensors as they are.  The only possible
failure is the library `KeyError` on a missing field; nothing checks
the shapes against the declared sizes. -/
def load (n : DynNet) (f : NpzFile) : Option DynNet :=
  (f ("W1")).bind fun a =>
  (f ("b1")).bind fun b =>
  (f ("W2")).bind fun c =>
  (f ("b2")).bind fun d =>
  some { n with
    W1 := a
    b1 := b
    W2 := c
    b2 := d }

/-- A 1×1 zero array. -/
def m11 : DynM := ⟨1, 1, fun _ _ => 0⟩

/-- A 2×1 zero array. -/
def m21 : DynM := ⟨2, 1, fun _ _ => 0⟩

/-- A 3×7 zero array, used as a wrongly shaped `W1` field. -/
def m37 : DynM := ⟨3, 7, fun _ _ => 0⟩

/-- A well-formed dynamic network with declared sizes 1, 1, 1. -/
def dnet1 : DynNet :=
  { input_size := 1
    hidden_size := 1
    output_size := 1
    learning_rate := 0.1
    t := 0
    W1 := m11
    b1 := m11
    W2 := m11
    b2 := m11
    mW1 := m11
    vW1 := m11
    mb1 := m11
    vb1 := m11
    mW2 := m11
    vW2 := m11
    mb2 := m11
    vb2 := m11 }

/-- A well-formed dynamic network with declared sizes
`input_size = 1`, `hidden_size = 1`, `output_size = 2`. -/
def dnet7 : DynNet :=
  { input_size := 1
    hidden_size := 1
    output_size := 2
    learning_rate := 0.1
    t := 0
    W1 := m11
    b1 := m11
    W2 := m21
    b2 := m21
    mW1 := m11
    vW1 := m11
    mb1 := m11
    vb1 := m11
    mW2 := m21
    vW2 := m21
    mb2 := m21
    vb2 := m21 }

/-- An archive whose `W1` field has shape 3×7, mismatching every
declared size of `dnet1`; all four fields are present. -/
def fBad : NpzFile := fun s =>
  if s = "W1" then some m37
  else if s = "b1" then some m11
  else if s = "W2" then some m11
  else if s = "b2" then some m11
  else none

/-- An archive with all four fields present and 1×1 shaped. -/
def fGood : NpzFile := fun s =>
  if s = "W1" then some m11
  else if s = "b1" then some m11
  else if s = "W2" then some m11
  else if s = "b2" then some m11
  else none

/-- Python `min` over a nonempty list (junk value 0 on the empty list,
where the source would raise). -/
def listMin : List ℝ → ℝ
  | [] => 0
  | a :: l => l.foldl min a

/-- `v < best` where `none` models the initial `float('inf')`. -/
def ltInf (v : ℝ) : Option ℝ → Prop
  | none => True
  | some b => v < b

instance decidableLtInf (v : ℝ) : (b : Option ℝ) → Decidable (ltInf v b)
  | none => isTrue trivial
  | some b => inferInstanceAs (Decidable (v < b))

/-- The batch start offsets `range(0, X.shape[1], batch_size)` of one
epoch; for `B ≥ 1` there are `(N + B - 1) // B` of them, matching
`num_batches` in the source. -/
def batchStarts (N B : ℕ) : List ℕ := (List.range ((N + B - 1) / B)).map (· * B)

/-- `X[:, i:i+batch_size]` — the column slice of width `w` starting at
column `s` (out-of-range entries are junk zeros, never read in use). -/
def colSlice {a n : ℕ} (X : Mat a n) (s w : ℕ) : Mat a w :=
  fun r c => if h : s + (c : ℕ) < n then X r ⟨s + (c : ℕ), h⟩ else 0

/-- One optimization step of the batch loop: `self.forward(x_batch)`
then `self.backward(x_batch, y_batch)` (forward only fills the caches,
which the `backward` model recomputes from the same batch). -/
def trainStep {nin nhid nout nN : ℕ} (net : Network nin nhid nout) (x : Mat nin nN)
    (y : Mat nout nN) : Network nin nhid nout :=
  backward net x y

/-- The inner batch loop of one epoch, over consecutive slices of
width `batch_size` (the final one shorter). -/
def runEpochBatches {nin nhid nout nN : ℕ} (net : Network nin nhid nout)
    (X : Mat nin nN) (Y : Mat nout nN) (B : ℕ) : Network nin nhid nout :=
  (batchStarts nN B).foldl
    (fun n s => trainStep n (colSlice X s (min B (nN - s))) (colSlice Y s (min B (nN - s))))
    net

/-- The local state of one `train` call (the loop variables of the
source, plus the live network). -/
structure TrainState (nin nhid nout : ℕ) where
  net : Network nin nhid nout
  losses : List ℝ
  val_losses : List ℝ
  best_val_loss : Option ℝ
  best_weights : Option (Params nin nhid nout)
  epochs_no_improve : ℕ
  stopped_epoch : ℕ
  parameters_history : List (Params nin nhid nout)

/-- The loop variables at entry of `train`: `losses, val_losses = [], []`,
`best_val_loss, best_weights = float('inf'), None`,
`epochs_no_improve, stopped_epoch = 0, 0`, `parameters_history = []`. -/
def initState {nin nhid nout : ℕ} (net : Network nin nhid nout) : TrainState nin nhid nout :=
  { net := net
    losses := []
    val_losses := []
    best_val_loss := none
    best_weights := none
    epochs_no_improve := 0
    stopped_epoch := 0
    parameters_history := [] }

/-- The per-epoch bookkeeping of `train` after the batch loop: append
the full-batch losses and the parameter snapshot, then either save a
checkpoint and reset the no-improvement counter (strict improvement) or
increment the counter. -/
def epochUpdate {nin nhid nout : ℕ} (s : TrainState nin nhid nout)
    (net2 : Network nin nhid nout) (loss val_loss : ℝ) : TrainState nin nhid nout :=
  let s1 : TrainState nin nhid nout :=
    { s with
      net := net2
      losses := s.losses ++ [loss]
      val_losses := s.val_losses ++ [val_loss]
      parameters_history := s.parameters_history ++ [getParams net2] }
  if ltInf val_loss s.best_val_loss then
    { s1 with
      best_val_loss := some val_loss
      best_weights := some (getParams net2)
      epochs_no_improve := 0 }
  else { s1 with epochs_no_improve := s.epochs_no_improve + 1 }

/-- The epoch loop of `train`: `k` epochs remain and `epoch` is the
index of the epoch about to run; stops as soon as the no-improvement
counter reaches the patience, recording `stopped_epoch = epoch`. -/
def trainLoop {nin nhid nout nN nM : ℕ} (X : Mat nin nN) (Y : Mat nout nN)
    (XV : Mat nin nM) (YV : Mat nout nM) (B P : ℕ) :
    ℕ → ℕ → TrainState nin nhid nout → TrainState nin nhid nout
  | 0, _, s => s
  | k + 1, epoch, s =>
    let net2 := runEpochBatches s.net X Y B
    let s2 := epochUpdate s net2 (mse Y (predict net2 X)) (mse YV (predict net2 XV))
    if P ≤ s2.epochs_no_improve then { s2 with stopped_epoch := epoch }
    else trainLoop X Y XV YV B P k (epoch + 1) s2

/-- `train(X, y, X_val, y_val, epochs, batch_size, patience)`: run the
epoch loop, then restore the best checkpoint into the live parameters
when one was saved, else leave the parameters as they are.  Returns
the whole final state (the source returns
`losses, val_losses, stopped_epoch, parameters_history` and mutates
the network in place). -/
def train {nin nhid nout nN nM : ℕ} (net : Network nin nhid nout) (X : Mat nin nN)
    (Y : Mat nout nN) (XV : Mat nin nM) (YV : Mat nout nM) (epochs B P : ℕ) :
    TrainState nin nhid nout :=
  let s := trainLoop X Y XV YV B P epochs 0 (initState net)
  match s.best_weights with
  | some w => { s with net := setParams s.net w }
  | none => s

/-- Modelled from the spec (§4.3 step 4): one step of the
early-stopping recurrence over the recorded validation-loss sequence —
strictly lower than the best seen so far saves and resets the counter
to 0, otherwise increments it. -/
def esStep (st : Option ℝ × ℕ) (v : ℝ) : Option ℝ × ℕ :=
  if ltInf v st.1 then (some v, 0) else (st.1, st.2 + 1)

/-- The `(best, counter)` pair after scanning a recorded loss list. -/
def esScan (L : List ℝ) : Option ℝ × ℕ := L.foldl esStep (none, 0)

/-- The first index at which the no-improvement counter reaches the
patience `P`, scanning `L` from state `st` at index `idx`. -/
def esStopAux (P : ℕ) : Option ℝ × ℕ → ℕ → List ℝ → Option ℕ
  | _, _, [] => none
  | st, idx, v :: L =>
    if P ≤ (esStep st v).2 then some idx else esStopAux P (esStep st v) (idx + 1) L

/-- Modelled from the spec (§4.3 step 5): the epoch index at which
early stopping triggers on a recorded validation-loss sequence, if it
ever does. -/
def esStop (P : ℕ) (L : List ℝ) : Option ℕ := esStopAux P (none, 0) 0 L

/-- The global best-model registries of the module-level selection
loop: the two best losses (`float('inf')` is `none`), the two model
references and hidden sizes, the two retained loss histories, the
retained parameter history of the best-validation round, and the
contents last persisted to `best_val_model.npz` and
`best_train_model.npz`.  Models of different hidden sizes coexist, so
entries carry their hidden size as a sigma component. -/
structure SelState (nin nout : ℕ) where
  best_val_loss : Option ℝ
  best_train_loss : Option ℝ
  best_val_model : Option ((h : ℕ) × Network nin h nout)
  best_train_model : Option ((h : ℕ) × Network nin h nout)
  best_val_hidden_size : Option ℕ
  best_train_hidden_size : Option ℕ
  best_val_loss_history : List ℝ
  best_train_loss_history : List ℝ
  best_parameters_history : Option ((h : ℕ) × List (Params nin h nout))
  saved_val_file : Option ((h : ℕ) × Params nin h nout)
  saved_train_file : Option ((h : ℕ) × Params nin h nout)

/-- The module-level initial registry state (`None`/`inf`/`[]`). -/
def initSelState (nin nout : ℕ) : SelState nin nout :=
  { best_val_loss := none
    best_train_loss := none
    best_val_model := none
    best_train_model := none
    best_val_hidden_size := none
    best_train_hidden_size := none
    best_val_loss_history := []
    best_train_loss_history := []
    best_parameters_history := none
    saved_val_file := none
    saved_train_file := none }

/-- One iteration of the module-level loop body for one round: run
`train` on the freshly constructed network `r.2` (of hidden size
`r.1`), then conditionally replace the best-validation registry and,
independently, the best-training registry, each with a strict `<`
comparison, persisting the network's current (post-train) parameters
on replacement.  (The intermediate `nn.predict(X_test)`/RMSE of the
source has no effect on the registries.) -/
def selectionStep {nin nout nN nM : ℕ} (X : Mat nin nN) (Y : Mat nout nN) (XV : Mat nin nM)
    (YV : Mat nout nM) (E B P : ℕ) (st : SelState nin nout)
    (r : (h : ℕ) × Network nin h nout) : SelState nin nout :=
  let R := train r.2 X Y XV YV E B P
  let st1 : SelState nin nout :=
    if ltInf (listMin R.val_losses) st.best_val_loss then
      { st with
        best_val_loss := some (listMin R.val_losses)
        best_val_model := some ⟨r.1, R.net⟩
        best_val_hidden_size := some r.1
        best_val_loss_history := R.val_losses
        saved_val_file := some ⟨r.1, getParams R.net⟩
        best_parameters_history := some ⟨r.1, R.parameters_history⟩ }
    else st
  if ltInf (listMin R.losses) st1.best_train_loss then
    { st1 with
      best_train_loss := some (listMin R.losses)
      best_train_model := some ⟨r.1, R.net⟩
      best_train_hidden_size := some r.1
      best_train_loss_history := R.losses
      saved_train_file := some ⟨r.1, getParams R.net⟩ }
  else st1

/-- The whole model-selection loop over the flattened sequence of
rounds (every hidden size contributes `ROUNDS` freshly initialized
networks, supplied here as the list of initial models). -/
def selectionLoop {nin nout nN nM : ℕ} (X : Mat nin nN) (Y : Mat nout nN) (XV : Mat nin nM)
    (YV : Mat nout nM) (E B P : ℕ) (rounds : List ((h : ℕ) × Network nin h nout)) :
    SelState nin nout :=
  rounds.foldl (selectionStep X Y XV YV E B P) (initSelState nin nout)

/-- `min(val_losses)` of one round. -/
def roundVal {nin nout nN nM : ℕ} (X : Mat nin nN) (Y : Mat nout nN) (XV : Mat nin nM)
    (YV : Mat nout nM) (E B P : ℕ) (r : (h : ℕ) × Network nin h nout) : ℝ :=
  listMin (train r.2 X Y XV YV E B P).val_losses

/-- `min(loss_history)` of one round. -/
def roundTrain {nin nout nN nM : ℕ} (X : Mat nin nN) (Y : Mat nout nN) (XV : Mat nin nM)
    (YV : Mat nout nM) (E B P : ℕ) (r : (h : ℕ) × Network nin h nout) : ℝ :=
  listMin (train r.2 X Y XV YV E B P).losses

/-- The minimum of a list of reals, `none` on the empty list. -/
def minOpt : List ℝ → Option ℝ
  | [] => none
  | a :: l => some (listMin (a :: l))

/-- The checkpoint bookkeeping invariant of the epoch loop:
`best_val_loss`/`epochs_no_improve` follow the spec recurrence over the
recorded validation losses, and `best_weights` is the parameter
snapshot of the earliest epoch attaining the minimum recorded
validation loss. -/
def ckptInv {nin nhid nout : ℕ} (s : TrainState nin nhid nout) : Prop :=
  s.losses.length = s.val_losses.length ∧
  s.parameters_history.length = s.val_losses.length ∧
  ((s.best_val_loss, s.epochs_no_improve) = esScan s.val_losses) ∧
  (s.best_val_loss = none → s.best_weights = none ∧ s.val_losses = []) ∧
  (∀ b, s.best_val_loss = some b →
    ∃ e : ℕ, s.val_losses.get? e = some b ∧
      s.best_weights = s.parameters_history.get? e ∧
      (∀ (e2 : ℕ) (v2 : ℝ), e2 < e → s.val_losses.get? e2 = some v2 → b < v2) ∧
      (∀ (e2 : ℕ) (v2 : ℝ), s.val_losses.get? e2 = some v2 → b ≤ v2))

/-- The loss function whose true gradients the amended C4 claims for
`backward`: half the batch mean of the per-sample squared error summed
over output coordinates, `L = (1/(2N))·Σ_j Σ_p (out_pj − y_pj)²`. -/
def lossHalf {nin nhid nout nN : ℕ} (net : Network nin nhid nout) (x : Mat nin nN)
    (y : Mat nout nN) : ℝ :=
  (∑ j, ∑ p, (forward net x p j - y p j) ^ 2) / (2 * (nN : ℝ))

/-- Replace the single entry `(p, q)` of `W1`. -/
def setW1 {nin nhid nout : ℕ} (net : Network nin nhid nout) (p : Fin nhid) (q : Fin nin)
    (w : ℝ) : Network nin nhid nout :=
  { net with W1 := fun a b => if a = p ∧ b = q then w else net.W1 a b }

/-- Replace the single entry `p` of the bias column `b1`. -/
def setb1 {nin nhid nout : ℕ} (net : Network nin nhid nout) (p : Fin nhid) (w : ℝ) :
    Network nin nhid nout :=
  { net with b1 := fun a b => if a = p then w else net.b1 a b }

/-- Replace the single entry `(p, q)` of `W2`. -/
def setW2 {nin nhid nout : ℕ} (net : Network nin nhid nout) (p : Fin nout) (q : Fin nhid)
    (w : ℝ) : Network nin nhid nout :=
  { net with W2 := fun a b => if a = p ∧ b = q then w else net.W2 a b }

/-- Replace the single entry `p` of the bias column `b2`. -/
def setb2 {nin nhid nout : ℕ} (net : Network nin nhid nout) (p : Fin nout) (w : ℝ) :
    Network nin nhid nout :=
  { net with b2 := fun a b => if a = p then w else net.b2 a b }

/-- The all-zero 1×1 input batch of the C4 counterexample. -/
def xZero : Mat 1 1 := 0

/-- The all-ones 1×1 target batch of the C4 counterexample. -/
def yOne : Mat 1 1 := fun _ _ => 1

/-- A freshly constructed 1×1×1 network whose random weights happened
to be zero. -/
def netZero : Network 1 1 1 := mkNetwork 0.1 0 0

/-- C2: every `update_weights` call increments the shared step counter
by exactly one, and each of the four parameter tensors together with
its moments is transformed by the bias-corrected Adam rule of the spec,
all four driven by the same incremented `t`, with β1 = 0.9,
β2 = 0.999, ε = 1e-8. -/
theorem update_weights_is_shared_t_adam {nin nhid nout : ℕ} (net : Network nin nhid nout)
    (g1 : Mat nhid nin) (g2 : Mat nhid 1) (g3 : Mat nout nhid) (g4 : Mat nout 1) :
    (update_weights net g1 g2 g3 g4).t = net.t + 1 ∧
    (update_weights net g1 g2 g3 g4).W1 =
      (adamSpecRule net.W1 net.mW1 net.vW1 g1 net.learning_rate (net.t + 1)).1 ∧
    (update_weights net g1 g2 g3 g4).mW1 =
      (adamSpecRule net.W1 net.mW1 net.vW1 g1 net.learning_rate (net.t + 1)).2.1 ∧
    (update_weights net g1 g2 g3 g4).vW1 =
      (adamSpecRule net.W1 net.mW1 net.vW1 g1 net.learning_rate (net.t + 1)).2.2 ∧
    (update_weights net g1 g2 g3 g4).b1 =
      (adamSpecRule net.b1 net.mb1 net.vb1 g2 net.learning_rate (net.t + 1)).1 ∧
    (update_weights net g1 g2 g3 g4).mb1 =
      (adamSpecRule net.b1 net.mb1 net.vb1 g2 net.learning_rate (net.t + 1)).2.1 ∧
    (update_weights net g1 g2 g3 g4).vb1 =
      (adamSpecRule net.b1 net.mb1 net.vb1 g2 net.learning_rate (net.t + 1)).2.2 ∧
    (update_weights net g1 g2 g3 g4).W2 =
      (adamSpecRule net.W2 net.mW2 net.vW2 g3 net.learning_rate (net.t + 1)).1 ∧
    (update_weights net g1 g2 g3 g4).mW2 =
      (adamSpecRule net.W2 net.mW2 net.vW2 g3 net.learning_rate (net.t + 1)).2.1 ∧
    (update_weights net g1 g2 g3 g4).vW2 =
      (adamSpecRule net.W2 net.mW2 net.vW2 g3 net.learning_rate (net.t + 1)).2.2 ∧
    (update_weights net g1 g2 g3 g4).b2 =
      (adamSpecRule net.b2 net.mb2 net.vb2 g4 net.learning_rate (net.t + 1)).1 ∧
    (update_weights net g1 g2 g3 g4).mb2 =
      (adamSpecRule net.b2 net.mb2 net.vb2 g4 net.learning_rate (net.t + 1)).2.1 ∧
    (update_weights net g1 g2 g3 g4).vb2 =
      (adamSpecRule net.b2 net.mb2 net.vb2 g4 net.learning_rate (net.t + 1)).2.2 ∧
    beta1 = 0.9 ∧ beta2 = 0.999 ∧ epsilon = 1e-8 :=
  ⟨rfl, rfl, rfl, rfl, rfl, rfl, rfl, rfl, rfl, rfl, rfl, rfl, rfl, rfl, rfl, rfl⟩

/-- C5: on a freshly constructed network (zero moments, `t = 0`), after
exactly one `update_weights` call the bias-corrected moments satisfy
`m_hat = G` and `v_hat = G²` elementwise, for each of the four
parameter tensors. -/
theorem first_step_bias_correction_exact {nin nhid nout : ℕ} (net : Network nin nhid nout)
    (g1 : Mat nhid nin) (g2 : Mat nhid 1) (g3 : Mat nout nhid) (g4 : Mat nout 1)
    (ht : net.t = 0) (h1 : net.mW1 = 0) (h2 : net.vW1 = 0) (h3 : net.mb1 = 0)
    (h4 : net.vb1 = 0) (h5 : net.mW2 = 0) (h6 : net.vW2 = 0) (h7 : net.mb2 = 0)
    (h8 : net.vb2 = 0) :
    mhatOf (update_weights net g1 g2 g3 g4).mW1 (update_weights net g1 g2 g3 g4).t = g1 ∧
    vhatOf (update_weights net g1 g2 g3 g4).vW1 (update_weights net g1 g2 g3 g4).t =
      (fun p q => g1 p q ^ 2) ∧
    mhatOf (update_weights net g1 g2 g3 g4).mb1 (update_weights net g1 g2 g3 g4).t = g2 ∧
    vhatOf (update_weights net g1 g2 g3 g4).vb1 (update_weights net g1 g2 g3 g4).t =
      (fun p q => g2 p q ^ 2) ∧
    mhatOf (update_weights net g1 g2 g3 g4).mW2 (update_weights net g1 g2 g3 g4).t = g3 ∧
    vhatOf (update_weights net g1 g2 g3 g4).vW2 (update_weights net g1 g2 g3 g4).t =
      (fun p q => g3 p q ^ 2) ∧
    mhatOf (update_weights net g1 g2 g3 g4).mb2 (update_weights net g1 g2 g3 g4).t = g4 ∧
    vhatOf (update_weights net g1 g2 g3 g4).vb2 (update_weights net g1 g2 g3 g4).t =
      (fun p q => g4 p q ^ 2) := by
  have key1 : ∀ (a b : ℕ) (m g : Mat a b), m = 0 →
      (fun p q => (beta1 * m p q + (1 - beta1) * g p q) / (1 - beta1 ^ (0 + 1))) = g := by
    intro a b m g hm
    funext p q
    rw [hm]
    simp only [Matrix.zero_apply]
    rw [div_eq_iff (by norm_num [beta1] : (1 : ℝ) - beta1 ^ (0 + 1) ≠ 0)]
    ring
  have key2 : ∀ (a b : ℕ) (v g : Mat a b), v = 0 →
      (fun p q => (beta2 * v p q + (1 - beta2) * g p q ^ 2) / (1 - beta2 ^ (0 + 1))) =
        (fun p q => g p q ^ 2) := by
    intro a b v g hv
    funext p q
    rw [hv]
    simp only [Matrix.zero_apply]
    rw [div_eq_iff (by norm_num [beta2] : (1 : ℝ) - beta2 ^ (0 + 1) ≠ 0)]
    ring
  refine ⟨?_, ?_, ?_, ?_, ?_, ?_, ?_, ?_⟩
  · show (fun p q => (beta1 * net.mW1 p q + (1 - beta1) * g1 p q) / (1 - beta1 ^ (net.t + 1))) = g1
    rw [ht]; exact key1 _ _ _ _ h1
  · show (fun p q => (beta2 * net.vW1 p q + (1 - beta2) * g1 p q ^ 2) /
        (1 - beta2 ^ (net.t + 1))) = fun p q => g1 p q ^ 2
    rw [ht]; exact key2 _ _ _ _ h2
  · show (fun p q => (beta1 * net.mb1 p q + (1 - beta1) * g2 p q) / (1 - beta1 ^ (net.t + 1))) = g2
    rw [ht]; exact key1 _ _ _ _ h3
  · show (fun p q => (beta2 * net.vb1 p q + (1 - beta2) * g2 p q ^ 2) /
        (1 - beta2 ^ (net.t + 1))) = fun p q => g2 p q ^ 2
    rw [ht]; exact key2 _ _ _ _ h4
  · show (fun p q => (beta1 * net.mW2 p q + (1 - beta1) * g3 p q) / (1 - beta1 ^ (net.t + 1))) = g3
    rw [ht]; exact key1 _ _ _ _ h5
  · show (fun p q => (beta2 * net.vW2 p q + (1 - beta2) * g3 p q ^ 2) /
        (1 - beta2 ^ (net.t + 1))) = fun p q => g3 p q ^ 2
    rw [ht]; exact key2 _ _ _ _ h6
  · show (fun p q => (beta1 * net.mb2 p q + (1 - beta1) * g4 p q) / (1 - beta1 ^ (net.t + 1))) = g4
    rw [ht]; exact key1 _ _ _ _ h7
  · show (fun p q => (beta2 * net.vb2 p q + (1 - beta2) * g4 p q ^ 2) /
        (1 - beta2 ^ (net.t + 1))) = fun p q => g4 p q ^ 2
    rw [ht]; exact key2 _ _ _ _ h8

/-- Witness for C5 at a concrete fresh 1×1×1 network with all-ones
gradients. -/
theorem first_step_bias_correction_exact_witness :
    (mkNetwork (0.1 : ℝ) (0 : Mat 1 1) (0 : Mat 1 1)).t = 0 ∧
    (mhatOf (update_weights (mkNetwork (0.1 : ℝ) (0 : Mat 1 1) (0 : Mat 1 1)) 1 1 1 1).mW1
        (update_weights (mkNetwork (0.1 : ℝ) (0 : Mat 1 1) (0 : Mat 1 1)) 1 1 1 1).t =
      (1 : Mat 1 1)) := by
  refine ⟨rfl, ?_⟩
  exact (first_step_bias_correction_exact (mkNetwork (0.1 : ℝ) (0 : Mat 1 1) (0 : Mat 1 1))
    1 1 1 1 rfl rfl rfl rfl rfl rfl rfl rfl rfl).1

/-- C8 counterexample: loading an archive whose `W1` shape (3×7)
mismatches every declared size of the target network succeeds silently
instead of failing with a `LoadError`; the wrongly shaped array is
installed as the live `W1`. -/
theorem load_accepts_mismatched_shapes :
    (load dnet1 fBad).isSome = true ∧
    ((load dnet1 fBad).getD dnet1).W1.rows = 3 ∧
    ((load dnet1 fBad).getD dnet1).W1.cols = 7 ∧
    dnet1.hidden_size = 1 ∧ dnet1.input_size = 1 :=
  ⟨rfl, rfl, rfl, rfl, rfl⟩

/-- C8 amended: `load` fails (with the library `KeyError`, there is no
`LoadError` class) exactly when one of the fixed fields `W1`, `b1`,
`W2`, `b2` is missing from the archive, and when all are present it
replaces the four parameter tensors with the file's arrays exactly,
performing no shape validation whatsoever. -/
theorem load_semantics (n : DynNet) (f : NpzFile) :
    ((load n f).isSome ↔
      (f ("W1")).isSome ∧ (f ("b1")).isSome ∧ (f ("W2")).isSome ∧ (f ("b2")).isSome) ∧
    (∀ a b c d, f ("W1") = some a → f ("b1") = some b → f ("W2") = some c →
      f ("b2") = some d →
      load n f = some { n with W1 := a, b1 := b, W2 := c, b2 := d }) := by
  constructor
  · cases hA : f ("W1") <;> cases hB : f ("b1") <;> cases hC : f ("W2") <;>
      cases hD : f ("b2") <;> simp [load, hA, hB, hC, hD]
  · intro a b c d hA hB hC hD
    simp [load, hA, hB, hC, hD]

/-- Witness for C8's amended theorem at a concrete archive. -/
theorem load_semantics_witness :
    fGood ("W1") = some m11 ∧
    load dnet1 fGood = some { dnet1 with W1 := m11, b1 := m11, W2 := m11, b2 := m11 } :=
  ⟨rfl, (load_semantics dnet1 fGood).2 m11 m11 m11 m11 rfl rfl rfl rfl⟩

/-- C10: `load` replaces only the four parameter tensors; the declared
sizes, the learning rate, the eight Adam moment accumulators and the
shared step counter `t` are left untouched, so a later update
bias-corrects with the pre-load step count and moments. -/
theorem load_leaves_adam_state (n : DynNet) (f : NpzFile) (r : DynNet)
    (h : load n f = some r) :
    r.t = n.t ∧ r.learning_rate = n.learning_rate ∧
    r.input_size = n.input_size ∧ r.hidden_size = n.hidden_size ∧
    r.output_size = n.output_size ∧
    r.mW1 = n.mW1 ∧ r.vW1 = n.vW1 ∧ r.mb1 = n.mb1 ∧ r.vb1 = n.vb1 ∧
    r.mW2 = n.mW2 ∧ r.vW2 = n.vW2 ∧ r.mb2 = n.mb2 ∧ r.vb2 = n.vb2 := by
  unfold load at h
  cases hA : f ("W1") <;> rw [hA] at h
  · simp at h
  cases hB : f ("b1") <;> rw [hB] at h
  · simp at h
  cases hC : f ("W2") <;> rw [hC] at h
  · simp at h
  cases hD : f ("b2") <;> rw [hD] at h
  · simp at h
  simp only [Option.some_bind, Option.some.injEq] at h
  subst h
  exact ⟨rfl, rfl, rfl, rfl, rfl, rfl, rfl, rfl, rfl, rfl, rfl, rfl, rfl⟩

/-- Witness for C10 at a concrete load that succeeds. -/
theorem load_leaves_adam_state_witness :
    load dnet1 fGood = some dnet1 ∧ dnet1.t = dnet1.t ∧ dnet1.mW1 = dnet1.mW1 :=
  ⟨rfl, (load_leaves_adam_state dnet1 fGood dnet1 rfl).1,
    (load_leaves_adam_state dnet1 fGood dnet1 rfl).2.2.2.2.2.1⟩

/-- C7 counterexample: with a network of declared `output_size = 2`, a
target batch `y` with only 1 row (shape-mismatched against
`output_size`) is silently broadcast by `dz2 = output - y`: the whole
gradient computation of `backward` completes with no failure at all,
so no `ShapeError` (nor any other error) precedes the computation. -/
theorem backward_accepts_broadcast_mismatched_target :
    m11.rows ≠ dnet7.output_size ∧ (dynGrads dnet7 m11 m11).isSome = true :=
  ⟨by decide, rfl⟩

/-- C7 amended: there is no shape pre-validation and no `ShapeError`:
`forward`/`predict` on a well-formed network fail — with the library's
own `dot` dimension error, raised from inside the computation — exactly
when the input's row count differs from the declared `input_size`,
while target shapes are never checked (a broadcastable mismatched
target is accepted silently, see the counterexample). -/
theorem forward_fails_only_on_input_row_mismatch (n : DynNet) (x : DynM)
    (hwf : wfNet n) :
    (dynForward n x).isSome ↔ x.rows = n.input_size := by
  obtain ⟨h1, h2, h3, h4, h5, h6, h7, h8⟩ := hwf
  constructor
  · intro hs
    by_contra hne
    have : dDot n.W1 x = none := by
      unfold dDot
      rw [if_neg]
      rw [h2]
      exact fun hc => hne hc.symm
    rw [dynForward, this] at hs
    simp at hs
  · intro hx
    have hdot : dDot n.W1 x =
        some ⟨n.W1.rows, x.cols,
          fun p q => ∑ r in Finset.range n.W1.cols, n.W1.ent p r * x.ent r q⟩ := by
      unfold dDot
      rw [if_pos]
      rw [h2, hx]
    rw [dynForward, hdot]
    simp only [Option.some_bind]
    have hadd1 : ∀ z1 : DynM, z1.rows = n.hidden_size → ∀ cc, z1.cols = cc →
        ∃ w : DynM, dAdd z1 n.b1 = some w ∧ w.rows = n.hidden_size ∧ w.cols = cc := by
      intro z1 hz1 cc hcc
      unfold dAdd dZip
      have hb : bAxis z1.rows n.b1.rows = some n.hidden_size := by
        unfold bAxis
        rw [hz1, h3, if_pos rfl]
      have hc : ∃ v, bAxis z1.cols n.b1.cols = some v ∧ v = cc := by
        unfold bAxis
        rw [h4, hcc]
        by_cases hone : cc = 1
        · subst hone
          exact ⟨1, by rw [if_pos rfl], rfl⟩
        · exact ⟨cc, by rw [if_neg hone, if_neg hone, if_pos rfl], rfl⟩
      obtain ⟨v, hv, hveq⟩ := hc
      subst hveq
      rw [hb, hv]
      exact ⟨_, rfl, rfl, rfl⟩
    obtain ⟨z1, hz1, hz1r, hz1c⟩ := hadd1 ⟨n.W1.rows, x.cols,
      fun p q => ∑ r in Finset.range n.W1.cols, n.W1.ent p r * x.ent r q⟩ h1 x.cols rfl
    rw [hz1]
    simp only [Option.some_bind]
    have hdot2 : dDot n.W2 (dTanh z1) =
        some ⟨n.W2.rows, (dTanh z1).cols,
          fun p q => ∑ r in Finset.range n.W2.cols,
            n.W2.ent p r * (dTanh z1).ent r q⟩ := by
      unfold dDot
      rw [if_pos]
      show n.W2.cols = z1.rows
      rw [h6, hz1r]
    rw [hdot2]
    simp only [Option.some_bind]
    obtain ⟨w, hw, _, _⟩ : ∃ w : DynM,
        dAdd ⟨n.W2.rows, (dTanh z1).cols,
          fun p q => ∑ r in Finset.range n.W2.cols,
            n.W2.ent p r * (dTanh z1).ent r q⟩ n.b2 = some w ∧
          w.rows = n.output_size ∧ w.cols = (dTanh z1).cols := by
      unfold dAdd dZip
      have hb : bAxis n.W2.rows n.b2.rows = some n.output_size := by
        unfold bAxis
        rw [h5, h7, if_pos rfl]
      have hc : ∃ v, bAxis (dTanh z1).cols n.b2.cols = some v ∧
          v = (dTanh z1).cols := by
        unfold bAxis
        rw [h8]
        by_cases hone : (dTanh z1).cols = 1
        · rw [hone]
          exact ⟨1, by rw [if_pos rfl], rfl⟩
        · exact ⟨(dTanh z1).cols, by rw [if_neg hone, if_neg hone, if_pos rfl], rfl⟩
      obtain ⟨v, hv, hveq⟩ := hc
      subst hveq
      rw [hb, hv]
      exact ⟨_, rfl, rfl, rfl⟩
    rw [hw]
    rfl

theorem setW1_self {nin nhid nout : ℕ} (net : Network nin nhid nout) (p : Fin nhid)
    (q : Fin nin) : setW1 net p q (net.W1 p q) = net := by
  unfold setW1
  have h : (fun a b => if a = p ∧ b = q then net.W1 p q else net.W1 a b) = net.W1 := by
    funext a b
    by_cases h : a = p ∧ b = q
    · rw [if_pos h, h.1, h.2]
    · rw [if_neg h]
  rw [h]

theorem setb1_self {nin nhid nout : ℕ} (net : Network nin nhid nout) (p : Fin nhid) :
    setb1 net p (net.b1 p 0) = net := by
  unfold setb1
  have h : (fun a b => if a = p then net.b1 p 0 else net.b1 a b) = net.b1 := by
    funext a b
    by_cases h : a = p
    · rw [if_pos h, h, Subsingleton.elim (0 : Fin 1) b]
    · rw [if_neg h]
  rw [h]

theorem setW2_self {nin nhid nout : ℕ} (net : Network nin nhid nout) (p : Fin nout)
    (q : Fin nhid) : setW2 net p q (net.W2 p q) = net := by
  unfold setW2
  have h : (fun a b => if a = p ∧ b = q then net.W2 p q else net.W2 a b) = net.W2 := by
    funext a b
    by_cases h : a = p ∧ b = q
    · rw [if_pos h, h.1, h.2]
    · rw [if_neg h]
  rw [h]

theorem setb2_self {nin nhid nout : ℕ} (net : Network nin nhid nout) (p : Fin nout) :
    setb2 net p (net.b2 p 0) = net := by
  unfold setb2
  have h : (fun a b => if a = p then net.b2 p 0 else net.b2 a b) = net.b2 := by
    funext a b
    by_cases h : a = p
    · rw [if_pos h, h, Subsingleton.elim (0 : Fin 1) b]
    · rw [if_neg h]
  rw [h]

/-- `d/dx tanh x = 1 - tanh² x`, from the sinh/cosh quotient rule. -/
theorem hasDerivAt_tanh (x : ℝ) : HasDerivAt Real.tanh (1 - Real.tanh x ^ 2) x := by
  have hc : Real.cosh x ≠ 0 := ne_of_gt (Real.cosh_pos x)
  have h := (Real.hasDerivAt_sinh x).div (Real.hasDerivAt_cosh x) hc
  have heq : (fun y => Real.sinh y / Real.cosh y) = Real.tanh := by
    funext y
    rw [Real.tanh_eq_sinh_div_cosh]
  rw [heq] at h
  convert h using 1
  have key : Real.cosh x ^ 2 - Real.sinh x ^ 2 = 1 := Real.cosh_sq_sub_sinh_sq x
  rw [Real.tanh_eq_sinh_div_cosh, div_pow]
  field_simp
  nlinarith [key]

theorem esScan_append (L : List ℝ) (v : ℝ) : esScan (L ++ [v]) = esStep (esScan L) v := by
  simp [esScan, List.foldl_append]

theorem esStopAux_append_single (P : ℕ) (v : ℝ) :
    ∀ (L : List ℝ) (st : Option ℝ × ℕ) (idx : ℕ), esStopAux P st idx L = none →
      esStopAux P st idx (L ++ [v]) =
        if P ≤ (esStep (L.foldl esStep st) v).2 then some (idx + L.length) else none := by
  intro L
  induction L with
  | nil =>
    intro st idx _
    simp [esStopAux]
  | cons a l ih =>
    intro st idx hnone
    rw [List.cons_append]
    simp only [esStopAux] at hnone ⊢
    by_cases h : P ≤ (esStep st a).2
    · rw [if_pos h] at hnone
      exact absurd hnone (by simp)
    · rw [if_neg h] at hnone ⊢
      rw [ih _ _ hnone, List.foldl_cons]
      have harith : idx + 1 + l.length = idx + (a :: l).length := by
        simp [List.length_cons]
        omega
      rw [harith]

theorem getParams_setParams {nin nhid nout : ℕ} (net : Network nin nhid nout)
    (w : Params nin nhid nout) : getParams (setParams net w) = w := rfl

/-- One epoch's bookkeeping preserves the checkpoint invariant and
behaves as the spec recurrence on the recorded sequence. -/
theorem ckptInv_epochUpdate {nin nhid nout : ℕ} (s : TrainState nin nhid nout)
    (hs : ckptInv s) (net2 : Network nin nhid nout) (loss val_loss : ℝ) :
    ckptInv (epochUpdate s net2 loss val_loss) ∧
    (epochUpdate s net2 loss val_loss).val_losses = s.val_losses ++ [val_loss] ∧
    (epochUpdate s net2 loss val_loss).stopped_epoch = s.stopped_epoch ∧
    (epochUpdate s net2 loss val_loss).epochs_no_improve =
      (esStep (s.best_val_loss, s.epochs_no_improve) val_loss).2 := by
  obtain ⟨hlen1, hlen2, hscan, hnone, hbest⟩ := hs
  by_cases h : ltInf val_loss s.best_val_loss
  · have hr : epochUpdate s net2 loss val_loss =
        { s with
          net := net2
          losses := s.losses ++ [loss]
          val_losses := s.val_losses ++ [val_loss]
          parameters_history := s.parameters_history ++ [getParams net2]
          best_val_loss := some val_loss
          best_weights := some (getParams net2)
          epochs_no_improve := 0 } := by
      simp only [epochUpdate]
      rw [if_pos h]
    rw [hr]
    refine ⟨⟨?_, ?_, ?_, ?_, ?_⟩, rfl, rfl, ?_⟩
    · simp [hlen1]
    · simp [hlen2]
    · rw [esScan_append, ← hscan]
      simp [esStep, h]
    · intro hcon
      exact absurd hcon (by simp)
    · intro b hb
      have hbv : val_loss = b := by
        simpa using hb
      subst hbv
      have hvlt : ∀ (e2 : ℕ) (v2 : ℝ), s.val_losses.get? e2 = some v2 → val_loss < v2 := by
        intro e2 v2 hget2
        cases hb0 : s.best_val_loss with
        | none =>
          obtain ⟨-, hemp⟩ := hnone hb0
          rw [hemp] at hget2
          exact absurd hget2 (by simp)
        | some b0 =>
          have hlt : val_loss < b0 := by
            have h2 := h
            rw [hb0] at h2
            exact h2
          obtain ⟨e, hget, hw, hearly, hle⟩ := hbest b0 hb0
          exact lt_of_lt_of_le hlt (hle e2 v2 hget2)
      refine ⟨s.val_losses.length, ?_, ?_, ?_, ?_⟩
      · exact List.get?_concat_length _ _
      · rw [← hlen2, List.get?_concat_length]
      · intro e2 v2 hlt2 hget2
        rw [List.get?_append hlt2] at hget2
        exact hvlt e2 v2 hget2
      · intro e2 v2 hget2
        rcases lt_trichotomy e2 s.val_losses.length with hc | hc | hc
        · rw [List.get?_append hc] at hget2
          exact le_of_lt (hvlt e2 v2 hget2)
        · subst hc
          rw [List.get?_concat_length] at hget2
          exact le_of_eq (Option.some.inj hget2)
        · have hnone2 : (s.val_losses ++ [val_loss]).get? e2 = none := by
            rw [List.get?_eq_none]
            simp only [List.length_append, List.length_singleton]
            omega
          rw [hnone2] at hget2
          exact absurd hget2 (by simp)
    · rw [esStep]
      rw [if_pos h]
  · have hr : epochUpdate s net2 loss val_loss =
        { s with
          net := net2
          losses := s.losses ++ [loss]
          val_losses := s.val_losses ++ [val_loss]
          parameters_history := s.parameters_history ++ [getParams net2]
          epochs_no_improve := s.epochs_no_improve + 1 } := by
      simp only [epochUpdate]
      rw [if_neg h]
    cases hb0 : s.best_val_loss with
    | none =>
      exact absurd (by rw [hb0]; trivial) h
    | some b0 =>
      have hge : b0 ≤ val_loss := by
        rw [hb0] at h
        exact not_lt.mp h
      rw [hr]
      refine ⟨⟨?_, ?_, ?_, ?_, ?_⟩, rfl, rfl, ?_⟩
      · simp [hlen1]
      · simp [hlen2]
      · rw [esScan_append, ← hscan]
        simp only [esStep]
        rw [if_neg h]
      · intro hcon
        rw [hb0] at hcon
        exact absurd hcon (by simp)
      · intro b hb
        have hbv : b = b0 := by
          rw [hb0] at hb
          simpa using hb.symm
        subst hbv
        obtain ⟨e, hget, hw, hearly, hle⟩ := hbest b hb0
        have helt : e < s.val_losses.length := by
          by_contra hcon
          rw [List.get?_eq_none.mpr (by omega)] at hget
          exact absurd hget (by simp)
        refine ⟨e, ?_, ?_, ?_, ?_⟩
        · rw [List.get?_append helt]
          exact hget
        · rw [List.get?_append (show e < s.parameters_history.length by omega)]
          exact hw
        · intro e2 v2 hlt2 hget2
          rw [List.get?_append (lt_trans hlt2 helt)] at hget2
          exact hearly e2 v2 hlt2 hget2
        · intro e2 v2 hget2
          rcases lt_trichotomy e2 s.val_losses.length with hc | hc | hc
          · rw [List.get?_append hc] at hget2
            exact hle e2 v2 hget2
          · subst hc
            rw [List.get?_concat_length] at hget2
            rw [← Option.some.inj hget2]
            exact hge
          · have hnone2 : (s.val_losses ++ [val_loss]).get? e2 = none := by
              rw [List.get?_eq_none]
              simp only [List.length_append, List.length_singleton]
              omega
            rw [hnone2] at hget2
            exact absurd hget2 (by simp)
      · simp only [esStep]
        rw [if_neg (show ¬ ltInf val_loss (some b0) from hb0 ▸ h)]

/-- Master induction over the epoch loop: from a state satisfying the
bookkeeping invariant, with the epoch counter equal to the number of
recorded epochs, no trigger in the recorded prefix and `stopped_epoch`
still 0, the loop preserves the invariant and either runs all `k`
remaining epochs without the patience condition triggering (leaving
`stopped_epoch = 0`) or stops at exactly the first trigger index of
the recorded validation-loss sequence. -/
theorem trainLoop_master {nin nhid nout nN nM : ℕ} (X : Mat nin nN) (Y : Mat nout nN)
    (XV : Mat nin nM) (YV : Mat nout nM) (B P : ℕ) :
    ∀ (k epoch : ℕ) (s : TrainState nin nhid nout),
      ckptInv s → epoch = s.val_losses.length → s.stopped_epoch = 0 →
      esStop P s.val_losses = none →
      ckptInv (trainLoop X Y XV YV B P k epoch s) ∧
      ((esStop P (trainLoop X Y XV YV B P k epoch s).val_losses = none ∧
        (trainLoop X Y XV YV B P k epoch s).val_losses.length = s.val_losses.length + k ∧
        (trainLoop X Y XV YV B P k epoch s).stopped_epoch = 0) ∨
       (∃ e, esStop P (trainLoop X Y XV YV B P k epoch s).val_losses = some e ∧
        (trainLoop X Y XV YV B P k epoch s).val_losses.length = e + 1 ∧
        (trainLoop X Y XV YV B P k epoch s).stopped_epoch = e ∧
        (trainLoop X Y XV YV B P k epoch s).val_losses.length ≤ s.val_losses.length + k)) := by
  intro k
  induction k with
  | zero =>
    intro epoch s hinv heq hstop hes
    refine ⟨hinv, Or.inl ⟨hes, by simp [trainLoop], hstop⟩⟩
  | succ k ih =>
    intro epoch s hinv heq hstop hes
    obtain ⟨hinv2, hval2, hstop2, hcnt2⟩ := ckptInv_epochUpdate s hinv
      (runEpochBatches s.net X Y B)
      (mse Y (predict (runEpochBatches s.net X Y B) X))
      (mse YV (predict (runEpochBatches s.net X Y B) XV))
    have hunf : trainLoop X Y XV YV B P (k + 1) epoch s =
        (if P ≤ (epochUpdate s (runEpochBatches s.net X Y B)
            (mse Y (predict (runEpochBatches s.net X Y B) X))
            (mse YV (predict (runEpochBatches s.net X Y B) XV))).epochs_no_improve
         then { epochUpdate s (runEpochBatches s.net X Y B)
            (mse Y (predict (runEpochBatches s.net X Y B) X))
            (mse YV (predict (runEpochBatches s.net X Y B) XV)) with stopped_epoch := epoch }
         else trainLoop X Y XV YV B P k (epoch + 1)
           (epochUpdate s (runEpochBatches s.net X Y B)
            (mse Y (predict (runEpochBatches s.net X Y B) X))
            (mse YV (predict (runEpochBatches s.net X Y B) XV)))) := by
      simp only [trainLoop]
    have hess2 : esStop P (epochUpdate s (runEpochBatches s.net X Y B)
        (mse Y (predict (runEpochBatches s.net X Y B) X))
        (mse YV (predict (runEpochBatches s.net X Y B) XV))).val_losses =
        if P ≤ (epochUpdate s (runEpochBatches s.net X Y B)
            (mse Y (predict (runEpochBatches s.net X Y B) X))
            (mse YV (predict (runEpochBatches s.net X Y B) XV))).epochs_no_improve
        then some s.val_losses.length else none := by
      rw [hval2, esStop, esStopAux_append_single P _ _ _ _ hes, hcnt2]
      have hfold : s.val_losses.foldl esStep (none, 0) =
          (s.best_val_loss, s.epochs_no_improve) := by
        obtain ⟨-, -, hscan, -, -⟩ := hinv
        exact hscan.symm
      rw [hfold]
      simp
    rw [hunf]
    by_cases hP : P ≤ (epochUpdate s (runEpochBatches s.net X Y B)
        (mse Y (predict (runEpochBatches s.net X Y B) X))
        (mse YV (predict (runEpochBatches s.net X Y B) XV))).epochs_no_improve
    · rw [if_pos hP]
      rw [if_pos hP] at hess2
      refine ⟨?_, Or.inr ⟨s.val_losses.length, ?_, ?_, ?_, ?_⟩⟩
      · exact hinv2
      · exact hess2
      · rw [hval2]
        simp
      · rw [heq]
      · rw [hval2]
        simp
    · rw [if_neg hP]
      rw [if_neg hP] at hess2
      have hlen2 : epoch + 1 = (epochUpdate s (runEpochBatches s.net X Y B)
          (mse Y (predict (runEpochBatches s.net X Y B) X))
          (mse YV (predict (runEpochBatches s.net X Y B) XV))).val_losses.length := by
        rw [hval2]
        simp [heq]
      have hstop3 : (epochUpdate s (runEpochBatches s.net X Y B)
          (mse Y (predict (runEpochBatches s.net X Y B) X))
          (mse YV (predict (runEpochBatches s.net X Y B) XV))).stopped_epoch = 0 := by
        rw [hstop2, hstop]
      obtain ⟨hinv3, hdisj⟩ := ih (epoch + 1) _ hinv2 hlen2 hstop3 hess2
      refine ⟨hinv3, ?_⟩
      rcases hdisj with ⟨ha, hb, hc⟩ | ⟨e, ha, hb, hc, hd⟩
      · refine Or.inl ⟨ha, ?_, hc⟩
        rw [hb, hval2]
        simp
        omega
      · refine Or.inr ⟨e, ha, hb, hc, ?_⟩
        have : (epochUpdate s (runEpochBatches s.net X Y B)
            (mse Y (predict (runEpochBatches s.net X Y B) X))
            (mse YV (predict (runEpochBatches s.net X Y B) XV))).val_losses.length =
            s.val_losses.length + 1 := by
          rw [hval2]
          simp
        omega

theorem foldl_min_le_init (l : List ℝ) (a : ℝ) : l.foldl min a ≤ a := by
  induction l generalizing a with
  | nil => exact le_refl a
  | cons c l ih => exact le_trans (ih (min a c)) (min_le_left a c)

theorem foldl_min_le_mem (l : List ℝ) (a : ℝ) (j : ℕ) (b : ℝ) (h : l.get? j = some b) :
    l.foldl min a ≤ b := by
  induction l generalizing a j with
  | nil => exact absurd h (by simp)
  | cons c l ih =>
    cases j with
    | zero =>
      have hb : c = b := by simpa using h
      rw [← hb]
      exact le_trans (foldl_min_le_init l (min a c)) (min_le_right a c)
    | succ j => exact ih (min a c) j (by simpa using h)

theorem listMin_le_get (L : List ℝ) (j : ℕ) (b : ℝ) (h : L.get? j = some b) :
    listMin L ≤ b := by
  cases L with
  | nil => exact absurd h (by simp)
  | cons a l =>
    cases j with
    | zero =>
      have hb : a = b := by simpa using h
      rw [listMin, ← hb]
      exact foldl_min_le_init l a
    | succ j => exact foldl_min_le_mem l a j b (by simpa using h)

theorem minOpt_concat (L : List ℝ) (v : ℝ) :
    minOpt (L ++ [v]) = some (Option.elim (minOpt L) v (fun m => min m v)) := by
  cases L with
  | nil => simp [minOpt, listMin]
  | cons a l =>
    show minOpt (a :: (l ++ [v])) = _
    rw [minOpt]
    rw [minOpt]
    simp only [Option.elim]
    rw [listMin, listMin, List.foldl_append]
    rw [List.foldl_cons, List.foldl_nil]

/-- The two registry updates of one selection round, field by field:
each registry is replaced exactly when the round's minimum loss is
strictly lower than the stored best, and is untouched otherwise (in
particular on ties). -/
theorem selectionStep_fields {nin nout nN nM : ℕ} (X : Mat nin nN) (Y : Mat nout nN)
    (XV : Mat nin nM) (YV : Mat nout nM) (E B P : ℕ) (st : SelState nin nout)
    (r : (h : ℕ) × Network nin h nout) :
    ((selectionStep X Y XV YV E B P st r).best_val_loss =
      if ltInf (roundVal X Y XV YV E B P r) st.best_val_loss
      then some (roundVal X Y XV YV E B P r) else st.best_val_loss) ∧
    ((selectionStep X Y XV YV E B P st r).best_val_model =
      if ltInf (roundVal X Y XV YV E B P r) st.best_val_loss
      then some ⟨r.1, (train r.2 X Y XV YV E B P).net⟩ else st.best_val_model) ∧
    ((selectionStep X Y XV YV E B P st r).best_val_hidden_size =
      if ltInf (roundVal X Y XV YV E B P r) st.best_val_loss
      then some r.1 else st.best_val_hidden_size) ∧
    ((selectionStep X Y XV YV E B P st r).best_val_loss_history =
      if ltInf (roundVal X Y XV YV E B P r) st.best_val_loss
      then (train r.2 X Y XV YV E B P).val_losses else st.best_val_loss_history) ∧
    ((selectionStep X Y XV YV E B P st r).saved_val_file =
      if ltInf (roundVal X Y XV YV E B P r) st.best_val_loss
      then some ⟨r.1, getParams (train r.2 X Y XV YV E B P).net⟩ else st.saved_val_file) ∧
    ((selectionStep X Y XV YV E B P st r).best_parameters_history =
      if ltInf (roundVal X Y XV YV E B P r) st.best_val_loss
      then some ⟨r.1, (train r.2 X Y XV YV E B P).parameters_history⟩
      else st.best_parameters_history) ∧
    ((selectionStep X Y XV YV E B P st r).best_train_loss =
      if ltInf (roundTrain X Y XV YV E B P r) st.best_train_loss
      then some (roundTrain X Y XV YV E B P r) else st.best_train_loss) ∧
    ((selectionStep X Y XV YV E B P st r).best_train_model =
      if ltInf (roundTrain X Y XV YV E B P r) st.best_train_loss
      then some ⟨r.1, (train r.2 X Y XV YV E B P).net⟩ else st.best_train_model) ∧
    ((selectionStep X Y XV YV E B P st r).best_train_hidden_size =
      if ltInf (roundTrain X Y XV YV E B P r) st.best_train_loss
      then some r.1 else st.best_train_hidden_size) ∧
    ((selectionStep X Y XV YV E B P st r).best_train_loss_history =
      if ltInf (roundTrain X Y XV YV E B P r) st.best_train_loss
      then (train r.2 X Y XV YV E B P).losses else st.best_train_loss_history) ∧
    ((selectionStep X Y XV YV E B P st r).saved_train_file =
      if ltInf (roundTrain X Y XV YV E B P r) st.best_train_loss
      then some ⟨r.1, getParams (train r.2 X Y XV YV E B P).net⟩ else st.saved_train_file) := by
  by_cases h1 : ltInf (roundVal X Y XV YV E B P r) st.best_val_loss <;>
    by_cases h2 : ltInf (roundTrain X Y XV YV E B P r) st.best_train_loss <;>
    · simp only [roundVal, roundTrain] at h1 h2 ⊢
      simp [selectionStep, h1, h2]

/-- The global registry invariant of the selection loop: each registry
holds the minimum of its per-round losses, and its payload is the
earliest round attaining that minimum. -/
theorem selection_master {nin nout nN nM : ℕ} (X : Mat nin nN) (Y : Mat nout nN)
    (XV : Mat nin nM) (YV : Mat nout nM) (E B P : ℕ)
    (rounds : List ((h : ℕ) × Network nin h nout)) :
    ((selectionLoop X Y XV YV E B P rounds).best_val_loss =
      minOpt (rounds.map (roundVal X Y XV YV E B P)) ∧
     Option.elim (selectionLoop X Y XV YV E B P rounds).best_val_loss True (fun m =>
      ∃ (i : ℕ) (r0 : (h : ℕ) × Network nin h nout),
        rounds.get? i = some r0 ∧ roundVal X Y XV YV E B P r0 = m ∧
        (∀ (j : ℕ) (rj : (h : ℕ) × Network nin h nout), j < i → rounds.get? j = some rj →
          m < roundVal X Y XV YV E B P rj) ∧
        (∀ (j : ℕ) (rj : (h : ℕ) × Network nin h nout), rounds.get? j = some rj →
          m ≤ roundVal X Y XV YV E B P rj) ∧
        (selectionLoop X Y XV YV E B P rounds).best_val_model =
          some ⟨r0.1, (train r0.2 X Y XV YV E B P).net⟩ ∧
        (selectionLoop X Y XV YV E B P rounds).best_val_hidden_size = some r0.1 ∧
        (selectionLoop X Y XV YV E B P rounds).best_val_loss_history =
          (train r0.2 X Y XV YV E B P).val_losses ∧
        (selectionLoop X Y XV YV E B P rounds).saved_val_file =
          some ⟨r0.1, getParams (train r0.2 X Y XV YV E B P).net⟩ ∧
        (selectionLoop X Y XV YV E B P rounds).best_parameters_history =
          some ⟨r0.1, (train r0.2 X Y XV YV E B P).parameters_history⟩)) ∧
    ((selectionLoop X Y XV YV E B P rounds).best_train_loss =
      minOpt (rounds.map (roundTrain X Y XV YV E B P)) ∧
     Option.elim (selectionLoop X Y XV YV E B P rounds).best_train_loss True (fun m =>
      ∃ (i : ℕ) (r0 : (h : ℕ) × Network nin h nout),
        rounds.get? i = some r0 ∧ roundTrain X Y XV YV E B P r0 = m ∧
        (∀ (j : ℕ) (rj : (h : ℕ) × Network nin h nout), j < i → rounds.get? j = some rj →
          m < roundTrain X Y XV YV E B P rj) ∧
        (∀ (j : ℕ) (rj : (h : ℕ) × Network nin h nout), rounds.get? j = some rj →
          m ≤ roundTrain X Y XV YV E B P rj) ∧
        (selectionLoop X Y XV YV E B P rounds).best_train_model =
          some ⟨r0.1, (train r0.2 X Y XV YV E B P).net⟩ ∧
        (selectionLoop X Y XV YV E B P rounds).best_train_hidden_size = some r0.1 ∧
        (selectionLoop X Y XV YV E B P rounds).best_train_loss_history =
          (train r0.2 X Y XV YV E B P).losses ∧
        (selectionLoop X Y XV YV E B P rounds).saved_train_file =
          some ⟨r0.1, getParams (train r0.2 X Y XV YV E B P).net⟩)) := by
  induction rounds using List.reverseRecOn with
  | nil =>
    refine ⟨⟨rfl, ?_⟩, rfl, ?_⟩ <;> trivial
  | append_singleton l r ih =>
    have hfold : selectionLoop X Y XV YV E B P (l ++ [r]) =
        selectionStep X Y XV YV E B P (selectionLoop X Y XV YV E B P l) r := by
      simp [selectionLoop, List.foldl_append]
    obtain ⟨⟨ihv1, ihv2⟩, iht1, iht2⟩ := ih
    obtain ⟨f1, f2, f3, f4, f5, f6, f7, f8, f9, f10, f11⟩ :=
      selectionStep_fields X Y XV YV E B P (selectionLoop X Y XV YV E B P l) r
    rw [hfold]
    constructor
    · by_cases h1 : ltInf (roundVal X Y XV YV E B P r)
          (selectionLoop X Y XV YV E B P l).best_val_loss
      · have hvlt : ∀ (j : ℕ) (rj : (h : ℕ) × Network nin h nout), l.get? j = some rj →
            roundVal X Y XV YV E B P r < roundVal X Y XV YV E B P rj := by
          intro j rj hget
          cases hbv : (selectionLoop X Y XV YV E B P l).best_val_loss with
          | none =>
            rw [hbv] at ihv1
            cases hl : l with
            | nil =>
              rw [hl] at hget
              exact absurd hget (by simp)
            | cons a t =>
              rw [hl] at ihv1
              simp [minOpt] at ihv1
          | some m =>
            have hlt : roundVal X Y XV YV E B P r < m := by
              rw [hbv] at h1
              exact h1
            have hm : minOpt (l.map (roundVal X Y XV YV E B P)) = some m := by
              rw [← ihv1, hbv]
            have hmm : m ≤ roundVal X Y XV YV E B P rj := by
              have hmap : (l.map (roundVal X Y XV YV E B P)).get? j =
                  some (roundVal X Y XV YV E B P rj) := by
                rw [List.get?_map, hget]
                rfl
              cases hlm : l.map (roundVal X Y XV YV E B P) with
              | nil =>
                rw [hlm] at hmap
                exact absurd hmap (by simp)
              | cons a t =>
                rw [hlm] at hm
                rw [minOpt] at hm
                rw [hlm] at hmap
                rw [← Option.some.inj hm]
                exact listMin_le_get (a :: t) j _ hmap
            exact lt_of_lt_of_le hlt hmm
        refine ⟨?_, ?_⟩
        · rw [f1, if_pos h1, List.map_append, List.map_singleton, minOpt_concat, ← ihv1]
          cases hbv : (selectionLoop X Y XV YV E B P l).best_val_loss with
          | none => rfl
          | some m =>
            have hlt : roundVal X Y XV YV E B P r < m := by
              rw [hbv] at h1
              exact h1
            simp only [Option.elim]
            rw [min_eq_right (le_of_lt hlt)]
        · rw [f1, if_pos h1]
          simp only [Option.elim]
          refine ⟨l.length, r, List.get?_concat_length l r, rfl, ?_, ?_, ?_, ?_, ?_, ?_, ?_⟩
          · intro j rj hj hget
            rw [List.get?_append hj] at hget
            exact hvlt j rj hget
          · intro j rj hget
            rcases lt_trichotomy j l.length with hc | hc | hc
            · rw [List.get?_append hc] at hget
              exact le_of_lt (hvlt j rj hget)
            · subst hc
              rw [List.get?_concat_length] at hget
              rw [← Option.some.inj hget]
            · have hcon : (l ++ [r]).get? j = none := by
                rw [List.get?_eq_none]
                simp only [List.length_append, List.length_singleton]
                omega
              rw [hcon] at hget
              exact absurd hget (by simp)
          · rw [f2, if_pos h1]
          · rw [f3, if_pos h1]
          · rw [f4, if_pos h1]
          · rw [f5, if_pos h1]
          · rw [f6, if_pos h1]
      · cases hbv : (selectionLoop X Y XV YV E B P l).best_val_loss with
        | none => exact absurd (by rw [hbv]; trivial) h1
        | some m =>
          have hge : m ≤ roundVal X Y XV YV E B P r := by
            rw [hbv] at h1
            exact not_lt.mp h1
          have hm : minOpt (l.map (roundVal X Y XV YV E B P)) = some m := by
            rw [← ihv1, hbv]
          refine ⟨?_, ?_⟩
          · rw [f1, if_neg h1, List.map_append, List.map_singleton, minOpt_concat, hm, hbv]
            simp only [Option.elim]
            rw [min_eq_left hge]
          · rw [f1, if_neg h1, hbv]
            simp only [Option.elim]
            rw [hbv] at ihv2
            simp only [Option.elim] at ihv2
            obtain ⟨i, r0, hget0, hval0, hearly0, hle0, hm1, hm2, hm3, hm4, hm5⟩ := ihv2
            have hib : i < l.length := by
              by_contra hcon
              rw [List.get?_eq_none.mpr (by omega)] at hget0
              exact absurd hget0 (by simp)
            refine ⟨i, r0, ?_, hval0, ?_, ?_, ?_, ?_, ?_, ?_, ?_⟩
            · rw [List.get?_append hib]
              exact hget0
            · intro j rj hj hget
              rw [List.get?_append (lt_trans hj hib)] at hget
              exact hearly0 j rj hj hget
            · intro j rj hget
              rcases lt_trichotomy j l.length with hc | hc | hc
              · rw [List.get?_append hc] at hget
                exact hle0 j rj hget
              · subst hc
                rw [List.get?_concat_length] at hget
                rw [← Option.some.inj hget]
                exact hge
              · have hcon : (l ++ [r]).get? j = none := by
                  rw [List.get?_eq_none]
                  simp only [List.length_append, List.length_singleton]
                  omega
                rw [hcon] at hget
                exact absurd hget (by simp)
            · rw [f2, if_neg h1]
              exact hm1
            · rw [f3, if_neg h1]
              exact hm2
            · rw [f4, if_neg h1]
              exact hm3
            · rw [f5, if_neg h1]
              exact hm4
            · rw [f6, if_neg h1]
              exact hm5
    · by_cases h1 : ltInf (roundTrain X Y XV YV E B P r)
          (selectionLoop X Y XV YV E B P l).best_train_loss
      · have hvlt : ∀ (j : ℕ) (rj : (h : ℕ) × Network nin h nout), l.get? j = some rj →
            roundTrain X Y XV YV E B P r < roundTrain X Y XV YV E B P rj := by
          intro j rj hget
          cases hbv : (selectionLoop X Y XV YV E B P l).best_train_loss with
          | none =>
            rw [hbv] at iht1
            cases hl : l with
            | nil =>
              rw [hl] at hget
              exact absurd hget (by simp)
            | cons a t =>
              rw [hl] at iht1
              simp [minOpt] at iht1
          | some m =>
            have hlt : roundTrain X Y XV YV E B P r < m := by
              rw [hbv] at h1
              exact h1
            have hm : minOpt (l.map (roundTrain X Y XV YV E B P)) = some m := by
              rw [← iht1, hbv]
            have hmm : m ≤ roundTrain X Y XV YV E B P rj := by
              have hmap : (l.map (roundTrain X Y XV YV E B P)).get? j =
                  some (roundTrain X Y XV YV E B P rj) := by
                rw [List.get?_map, hget]
                rfl
              cases hlm : l.map (roundTrain X Y XV YV E B P) with
              | nil =>
                rw [hlm] at hmap
                exact absurd hmap (by simp)
              | cons a t =>
                rw [hlm] at hm
                rw [minOpt] at hm
                rw [hlm] at hmap
                rw [← Option.some.inj hm]
                exact listMin_le_get (a :: t) j _ hmap
            exact lt_of_lt_of_le hlt hmm
        refine ⟨?_, ?_⟩
        · rw [f7, if_pos h1, List.map_append, List.map_singleton, minOpt_concat, ← iht1]
          cases hbv : (selectionLoop X Y XV YV E B P l).best_train_loss with
          | none => rfl
          | some m =>
            have hlt : roundTrain X Y XV YV E B P r < m := by
              rw [hbv] at h1
              exact h1
            simp only [Option.elim]
            rw [min_eq_right (le_of_lt hlt)]
        · rw [f7, if_pos h1]
          simp only [Option.elim]
          refine ⟨l.length, r, List.get?_concat_length l r, rfl, ?_, ?_, ?_, ?_, ?_, ?_⟩
          · intro j rj hj hget
            rw [List.get?_append hj] at hget
            exact hvlt j rj hget
          · intro j rj hget
            rcases lt_trichotomy j l.length with hc | hc | hc
            · rw [List.get?_append hc] at hget
              exact le_of_lt (hvlt j rj hget)
            · subst hc
              rw [List.get?_concat_length] at hget
              rw [← Option.some.inj hget]
            · have hcon : (l ++ [r]).get? j = none := by
                rw [List.get?_eq_none]
                simp only [List.length_append, List.length_singleton]
                omega
              rw [hcon] at hget
              exact absurd hget (by simp)
          · rw [f8, if_pos h1]
          · rw [f9, if_pos h1]
          · rw [f10, if_pos h1]
          · rw [f11, if_pos h1]
      · cases hbv : (selectionLoop X Y XV YV E B P l).best_train_loss with
        | none => exact absurd (by rw [hbv]; trivial) h1
        | some m =>
          have hge : m ≤ roundTrain X Y XV YV E B P r := by
            rw [hbv] at h1
            exact not_lt.mp h1
          have hm : minOpt (l.map (roundTrain X Y XV YV E B P)) = some m := by
            rw [← iht1, hbv]
          refine ⟨?_, ?_⟩
          · rw [f7, if_neg h1, List.map_append, List.map_singleton, minOpt_concat, hm, hbv]
            simp only [Option.elim]
            rw [min_eq_left hge]
          · rw [f7, if_neg h1, hbv]
            simp only [Option.elim]
            rw [hbv] at iht2
            simp only [Option.elim] at iht2
            obtain ⟨i, r0, hget0, hval0, hearly0, hle0, hm1, hm2, hm3, hm4⟩ := iht2
            have hib : i < l.length := by
              by_contra hcon
              rw [List.get?_eq_none.mpr (by omega)] at hget0
              exact absurd hget0 (by simp)
            refine ⟨i, r0, ?_, hval0, ?_, ?_, ?_, ?_, ?_, ?_⟩
            · rw [List.get?_append hib]
              exact hget0
            · intro j rj hj hget
              rw [List.get?_append (lt_trans hj hib)] at hget
              exact hearly0 j rj hj hget
            · intro j rj hget
              rcases lt_trichotomy j l.length with hc | hc | hc
              · rw [List.get?_append hc] at hget
                exact hle0 j rj hget
              · subst hc
                rw [List.get?_concat_length] at hget
                rw [← Option.some.inj hget]
                exact hge
              · have hcon : (l ++ [r]).get? j = none := by
                  rw [List.get?_eq_none]
                  simp only [List.length_append, List.length_singleton]
                  omega
                rw [hcon] at hget
                exact absurd hget (by simp)
            · rw [f8, if_neg h1]
              exact hm1
            · rw [f9, if_neg h1]
              exact hm2
            · rw [f10, if_neg h1]
              exact hm3
            · rw [f11, if_neg h1]
              exact hm4

/-- C1: at the end of any `train` call, the live parameters equal the
saved checkpoint when one was saved and the initial parameters
otherwise (`Option.getD`), and the saved checkpoint is the parameter
snapshot taken at the earliest epoch attaining the lowest recorded
validation loss of the run (not necessarily the final epoch). -/
theorem train_restores_best_checkpoint {nin nhid nout nN nM : ℕ}
    (net : Network nin nhid nout) (X : Mat nin nN) (Y : Mat nout nN) (XV : Mat nin nM)
    (YV : Mat nout nM) (epochs B P : ℕ) :
    getParams (train net X Y XV YV epochs B P).net =
      ((train net X Y XV YV epochs B P).best_weights).getD (getParams net) ∧
    Option.elim (train net X Y XV YV epochs B P).best_weights True (fun w =>
      ∃ (e : ℕ) (b : ℝ),
        (train net X Y XV YV epochs B P).parameters_history.get? e = some w ∧
        (train net X Y XV YV epochs B P).val_losses.get? e = some b ∧
        (∀ (e2 : ℕ) (v2 : ℝ),
          (train net X Y XV YV epochs B P).val_losses.get? e2 = some v2 → b ≤ v2) ∧
        (∀ (e2 : ℕ) (v2 : ℝ), e2 < e →
          (train net X Y XV YV epochs B P).val_losses.get? e2 = some v2 → b < v2)) := by
  have hinv0 : ckptInv (initState net) := by
    refine ⟨rfl, rfl, rfl, fun _ => ⟨rfl, rfl⟩, ?_⟩
    intro b hb
    exact absurd hb (by simp [initState])
  obtain ⟨hinv, hdisj⟩ := trainLoop_master X Y XV YV B P epochs 0 (initState net)
    hinv0 rfl rfl rfl
  obtain ⟨hlen1, hlen2, hscan, hnone, hbest⟩ := hinv
  cases hw : (trainLoop X Y XV YV B P epochs 0 (initState net)).best_weights with
  | some w =>
    have htr : train net X Y XV YV epochs B P =
        { trainLoop X Y XV YV B P epochs 0 (initState net) with
          net := setParams (trainLoop X Y XV YV B P epochs 0 (initState net)).net w } := by
      simp only [train]
      rw [hw]
    have hbw : (train net X Y XV YV epochs B P).best_weights = some w := by
      rw [htr]
      exact hw
    have hval : (train net X Y XV YV epochs B P).val_losses =
        (trainLoop X Y XV YV B P epochs 0 (initState net)).val_losses := by
      rw [htr]
    have hhist : (train net X Y XV YV epochs B P).parameters_history =
        (trainLoop X Y XV YV B P epochs 0 (initState net)).parameters_history := by
      rw [htr]
    have hnet : getParams (train net X Y XV YV epochs B P).net = w := by
      rw [htr]
      exact getParams_setParams _ w
    refine ⟨?_, ?_⟩
    · rw [hnet, hbw]
      rfl
    · rw [hbw, hval, hhist]
      simp only [Option.elim]
      cases hbv : (trainLoop X Y XV YV B P epochs 0 (initState net)).best_val_loss with
      | none =>
        obtain ⟨hwn, -⟩ := hnone hbv
        rw [hwn] at hw
        exact absurd hw (by simp)
      | some b =>
        obtain ⟨e, hget, hwq, hearly, hle⟩ := hbest b hbv
        refine ⟨e, b, ?_, hget, ?_, ?_⟩
        · rw [← hwq]
          exact hw
        · intro e2 v2 h2
          exact hle e2 v2 h2
        · intro e2 v2 hlt2 h2
          exact hearly e2 v2 hlt2 h2
  | none =>
    have hbvn : (trainLoop X Y XV YV B P epochs 0 (initState net)).best_val_loss = none := by
      cases hbv : (trainLoop X Y XV YV B P epochs 0 (initState net)).best_val_loss with
      | none => rfl
      | some b =>
        obtain ⟨e, hget, hwq, -, -⟩ := hbest b hbv
        rw [hw] at hwq
        have helt : e < (trainLoop X Y XV YV B P epochs 0 (initState net)).val_losses.length := by
          by_contra hcon
          rw [List.get?_eq_none.mpr (by omega)] at hget
          exact absurd hget (by simp)
        have hne : (trainLoop X Y XV YV B P epochs 0
            (initState net)).parameters_history.get? e ≠ none := by
          rw [ne_eq, List.get?_eq_none]
          omega
        exact absurd hwq.symm hne
    obtain ⟨-, hemp⟩ := hnone hbvn
    have hlen0 : (trainLoop X Y XV YV B P epochs 0 (initState net)).val_losses.length = 0 := by
      rw [hemp]
      rfl
    have hep0 : epochs = 0 := by
      rcases hdisj with ⟨-, hb, -⟩ | ⟨e, -, hb, -, -⟩
      · rw [hlen0] at hb
        have hinit : (initState net : TrainState nin nhid nout).val_losses.length = 0 := rfl
        rw [hinit] at hb
        omega
      · rw [hb] at hlen0
        exact absurd hlen0 (by simp)
    subst hep0
    have htr : train net X Y XV YV 0 B P =
        trainLoop X Y XV YV B P 0 0 (initState net) := by
      simp only [train]
      rw [hw]
    have hs0 : trainLoop X Y XV YV B P 0 0 (initState net) =
        initState net := rfl
    refine ⟨?_, ?_⟩
    · rw [htr, hs0]
      rfl
    · rw [htr, hs0]
      trivial

/-- C3: the running best and the no-improvement counter follow the
spec recurrence over the recorded validation losses (the counter is
reset to 0 exactly when the epoch's validation loss strictly improves
on the best seen so far, and incremented by 1 otherwise); the loop
stops at exactly the first epoch where the counter reaches the
patience, recording that epoch index as the stopped epoch and running
no further epochs; and when all `epochs` epochs complete with no
trigger the reported stopped epoch is 0. -/
theorem train_early_stopping {nin nhid nout nN nM : ℕ}
    (net : Network nin nhid nout) (X : Mat nin nN) (Y : Mat nout nN) (XV : Mat nin nM)
    (YV : Mat nout nM) (epochs B P : ℕ) :
    ((train net X Y XV YV epochs B P).best_val_loss,
      (train net X Y XV YV epochs B P).epochs_no_improve) =
      esScan (train net X Y XV YV epochs B P).val_losses ∧
    (match esStop P (train net X Y XV YV epochs B P).val_losses with
     | some e => (train net X Y XV YV epochs B P).stopped_epoch = e ∧
         (train net X Y XV YV epochs B P).val_losses.length = e + 1
     | none => (train net X Y XV YV epochs B P).stopped_epoch = 0 ∧
         (train net X Y XV YV epochs B P).val_losses.length = epochs) := by
  have hinv0 : ckptInv (initState net) := by
    refine ⟨rfl, rfl, rfl, fun _ => ⟨rfl, rfl⟩, ?_⟩
    intro b hb
    exact absurd hb (by simp [initState])
  obtain ⟨hinv, hdisj⟩ := trainLoop_master X Y XV YV B P epochs 0 (initState net)
    hinv0 rfl rfl rfl
  obtain ⟨-, -, hscan, -, -⟩ := hinv
  have hproj : (train net X Y XV YV epochs B P).val_losses =
      (trainLoop X Y XV YV B P epochs 0 (initState net)).val_losses ∧
      (train net X Y XV YV epochs B P).best_val_loss =
      (trainLoop X Y XV YV B P epochs 0 (initState net)).best_val_loss ∧
      (train net X Y XV YV epochs B P).epochs_no_improve =
      (trainLoop X Y XV YV B P epochs 0 (initState net)).epochs_no_improve ∧
      (train net X Y XV YV epochs B P).stopped_epoch =
      (trainLoop X Y XV YV B P epochs 0 (initState net)).stopped_epoch := by
    simp only [train]
    cases hw : (trainLoop X Y XV YV B P epochs 0 (initState net)).best_weights
    · exact ⟨rfl, rfl, rfl, rfl⟩
    · exact ⟨rfl, rfl, rfl, rfl⟩
  obtain ⟨hv, hb, hc, hst⟩ := hproj
  rw [hv, hb, hc, hst]
  refine ⟨hscan, ?_⟩
  rcases hdisj with ⟨ha, hlen, hzero⟩ | ⟨e, ha, hlen, hse, -⟩
  · rw [ha]
    refine ⟨hzero, ?_⟩
    rw [hlen]
    exact Nat.zero_add epochs
  · rw [ha]
    exact ⟨hse, hlen⟩

/-- C6: throughout the model-selection loop, (a) per step each
registry is replaced exactly when the round's minimum loss is strictly
lower than the stored best and is untouched otherwise — in particular
on ties — and (b) globally, each registry always holds the
earliest-found round achieving the globally minimal respective loss,
with its model reference, hidden size, loss history and persisted
file. -/
theorem selection_registries_hold_earliest_global_min {nin nout nN nM : ℕ}
    (X : Mat nin nN) (Y : Mat nout nN) (XV : Mat nin nM) (YV : Mat nout nM) (E B P : ℕ) :
    (∀ (st : SelState nin nout) (r : (h : ℕ) × Network nin h nout),
      ((selectionStep X Y XV YV E B P st r).best_val_loss =
        if ltInf (roundVal X Y XV YV E B P r) st.best_val_loss
        then some (roundVal X Y XV YV E B P r) else st.best_val_loss) ∧
      ((selectionStep X Y XV YV E B P st r).best_val_model =
        if ltInf (roundVal X Y XV YV E B P r) st.best_val_loss
        then some ⟨r.1, (train r.2 X Y XV YV E B P).net⟩ else st.best_val_model) ∧
      ((selectionStep X Y XV YV E B P st r).best_val_hidden_size =
        if ltInf (roundVal X Y XV YV E B P r) st.best_val_loss
        then some r.1 else st.best_val_hidden_size) ∧
      ((selectionStep X Y XV YV E B P st r).best_val_loss_history =
        if ltInf (roundVal X Y XV YV E B P r) st.best_val_loss
        then (train r.2 X Y XV YV E B P).val_losses else st.best_val_loss_history) ∧
      ((selectionStep X Y XV YV E B P st r).saved_val_file =
        if ltInf (roundVal X Y XV YV E B P r) st.best_val_loss
        then some ⟨r.1, getParams (train r.2 X Y XV YV E B P).net⟩ else st.saved_val_file) ∧
      ((selectionStep X Y XV YV E B P st r).best_parameters_history =
        if ltInf (roundVal X Y XV YV E B P r) st.best_val_loss
        then some ⟨r.1, (train r.2 X Y XV YV E B P).parameters_history⟩
        else st.best_parameters_history) ∧
      ((selectionStep X Y XV YV E B P st r).best_train_loss =
        if ltInf (roundTrain X Y XV YV E B P r) st.best_train_loss
        then some (roundTrain X Y XV YV E B P r) else st.best_train_loss) ∧
      ((selectionStep X Y XV YV E B P st r).best_train_model =
        if ltInf (roundTrain X Y XV YV E B P r) st.best_train_loss
        then some ⟨r.1, (train r.2 X Y XV YV E B P).net⟩ else st.best_train_model) ∧
      ((selectionStep X Y XV YV E B P st r).best_train_hidden_size =
        if ltInf (roundTrain X Y XV YV E B P r) st.best_train_loss
        then some r.1 else st.best_train_hidden_size) ∧
      ((selectionStep X Y XV YV E B P st r).best_train_loss_history =
        if ltInf (roundTrain X Y XV YV E B P r) st.best_train_loss
        then (train r.2 X Y XV YV E B P).losses else st.best_train_loss_history) ∧
      ((selectionStep X Y XV YV E B P st r).saved_train_file =
        if ltInf (roundTrain X Y XV YV E B P r) st.best_train_loss
        then some ⟨r.1, getParams (train r.2 X Y XV YV E B P).net⟩ else st.saved_train_file)) ∧
    (∀ rounds : List ((h : ℕ) × Network nin h nout),
      ((selectionLoop X Y XV YV E B P rounds).best_val_loss =
        minOpt (rounds.map (roundVal X Y XV YV E B P)) ∧
       Option.elim (selectionLoop X Y XV YV E B P rounds).best_val_loss True (fun m =>
        ∃ (i : ℕ) (r0 : (h : ℕ) × Network nin h nout),
          rounds.get? i = some r0 ∧ roundVal X Y XV YV E B P r0 = m ∧
          (∀ (j : ℕ) (rj : (h : ℕ) × Network nin h nout), j < i → rounds.get? j = some rj →
            m < roundVal X Y XV YV E B P rj) ∧
          (∀ (j : ℕ) (rj : (h : ℕ) × Network nin h nout), rounds.get? j = some rj →
            m ≤ roundVal X Y XV YV E B P rj) ∧
          (selectionLoop X Y XV YV E B P rounds).best_val_model =
            some ⟨r0.1, (train r0.2 X Y XV YV E B P).net⟩ ∧
          (selectionLoop X Y XV YV E B P rounds).best_val_hidden_size = some r0.1 ∧
          (selectionLoop X Y XV YV E B P rounds).best_val_loss_history =
            (train r0.2 X Y XV YV E B P).val_losses ∧
          (selectionLoop X Y XV YV E B P rounds).saved_val_file =
            some ⟨r0.1, getParams (train r0.2 X Y XV YV E B P).net⟩ ∧
          (selectionLoop X Y XV YV E B P rounds).best_parameters_history =
            some ⟨r0.1, (train r0.2 X Y XV YV E B P).parameters_history⟩)) ∧
      ((selectionLoop X Y XV YV E B P rounds).best_train_loss =
        minOpt (rounds.map (roundTrain X Y XV YV E B P)) ∧
       Option.elim (selectionLoop X Y XV YV E B P rounds).best_train_loss True (fun m =>
        ∃ (i : ℕ) (r0 : (h : ℕ) × Network nin h nout),
          rounds.get? i = some r0 ∧ roundTrain X Y XV YV E B P r0 = m ∧
          (∀ (j : ℕ) (rj : (h : ℕ) × Network nin h nout), j < i → rounds.get? j = some rj →
            m < roundTrain X Y XV YV E B P rj) ∧
          (∀ (j : ℕ) (rj : (h : ℕ) × Network nin h nout), rounds.get? j = some rj →
            m ≤ roundTrain X Y XV YV E B P rj) ∧
          (selectionLoop X Y XV YV E B P rounds).best_train_model =
            some ⟨r0.1, (train r0.2 X Y XV YV E B P).net⟩ ∧
          (selectionLoop X Y XV YV E B P rounds).best_train_hidden_size = some r0.1 ∧
          (selectionLoop X Y XV YV E B P rounds).best_train_loss_history =
            (train r0.2 X Y XV YV E B P).losses ∧
          (selectionLoop X Y XV YV E B P rounds).saved_train_file =
            some ⟨r0.1, getParams (train r0.2 X Y XV YV E B P).net⟩))) :=
  ⟨fun st r => selectionStep_fields X Y XV YV E B P st r,
   fun rounds => selection_master X Y XV YV E B P rounds⟩

/-- With at least one epoch, `train` always saves a checkpoint (the
first epoch's validation loss strictly improves on `inf`). -/
theorem train_best_weights_isSome {nin nhid nout nN nM : ℕ}
    (net : Network nin nhid nout) (X : Mat nin nN) (Y : Mat nout nN) (XV : Mat nin nM)
    (YV : Mat nout nM) (epochs B P : ℕ) (hE : 0 < epochs) :
    ∃ w, (train net X Y XV YV epochs B P).best_weights = some w := by
  have hinv0 : ckptInv (initState net) := by
    refine ⟨rfl, rfl, rfl, fun _ => ⟨rfl, rfl⟩, ?_⟩
    intro b hb
    exact absurd hb (by simp [initState])
  obtain ⟨hinv, hdisj⟩ := trainLoop_master X Y XV YV B P epochs 0 (initState net)
    hinv0 rfl rfl rfl
  obtain ⟨hlen1, hlen2, hscan, hnone, hbest⟩ := hinv
  have hlenpos : 0 < (trainLoop X Y XV YV B P epochs 0 (initState net)).val_losses.length := by
    rcases hdisj with ⟨-, hb, -⟩ | ⟨e, -, hb, -, -⟩
    · rw [hb]
      have hinit : (initState net : TrainState nin nhid nout).val_losses.length = 0 := rfl
      omega
    · rw [hb]
      omega
  cases hbv : (trainLoop X Y XV YV B P epochs 0 (initState net)).best_val_loss with
  | none =>
    obtain ⟨-, hemp⟩ := hnone hbv
    rw [hemp] at hlenpos
    exact absurd hlenpos (by simp)
  | some b =>
    obtain ⟨e, hget, hwq, -, -⟩ := hbest b hbv
    have helt : e < (trainLoop X Y XV YV B P epochs 0 (initState net)).val_losses.length := by
      by_contra hcon
      rw [List.get?_eq_none.mpr (by omega)] at hget
      exact absurd hget (by simp)
    have hp : ∃ p, (trainLoop X Y XV YV B P epochs 0
        (initState net)).parameters_history.get? e = some p := by
      cases hh : (trainLoop X Y XV YV B P epochs 0
          (initState net)).parameters_history.get? e with
      | none =>
        rw [List.get?_eq_none] at hh
        omega
      | some p => exact ⟨p, rfl⟩
    obtain ⟨p, hp⟩ := hp
    refine ⟨p, ?_⟩
    have hproj : (train net X Y XV YV epochs B P).best_weights =
        (trainLoop X Y XV YV B P epochs 0 (initState net)).best_weights := by
      simp only [train]
      cases hw : (trainLoop X Y XV YV B P epochs 0 (initState net)).best_weights
      · exact hw
      · rfl
    rw [hproj, hwq, hp]

/-- The restore step of `train`: when a checkpoint was saved, the live
parameters after `train` are exactly that checkpoint. -/
theorem train_getParams_of_best {nin nhid nout nN nM : ℕ}
    (net : Network nin nhid nout) (X : Mat nin nN) (Y : Mat nout nN) (XV : Mat nin nM)
    (YV : Mat nout nM) (epochs B P : ℕ) (w : Params nin nhid nout)
    (hw : (train net X Y XV YV epochs B P).best_weights = some w) :
    getParams (train net X Y XV YV epochs B P).net = w := by
  cases hw0 : (trainLoop X Y XV YV B P epochs 0 (initState net)).best_weights with
  | none =>
    have hn : (train net X Y XV YV epochs B P).best_weights = none := by
      simp only [train]
      rw [hw0]
      exact hw0
    rw [hn] at hw
    exact absurd hw (by simp)
  | some w0 =>
    have htr : train net X Y XV YV epochs B P =
        { trainLoop X Y XV YV B P epochs 0 (initState net) with
          net := setParams (trainLoop X Y XV YV B P epochs 0 (initState net)).net w0 } := by
      simp only [train]
      rw [hw0]
    have hbw : (train net X Y XV YV epochs B P).best_weights = some w0 := by
      rw [htr]
      exact hw0
    rw [hbw] at hw
    rw [htr, ← Option.some.inj hw]
    exact getParams_setParams _ w0

/-- C9: when a round replaces the best-training registry (its minimum
training loss strictly improves on the global best), the parameters
persisted to `best_train_model.npz` are the network's parameters after
`train` has already restored that round's best-validation checkpoint —
i.e. the round's validation-best weights, not the weights of the epoch
that achieved the minimum training loss. -/
theorem selection_train_file_holds_val_best {nin nout nN nM : ℕ}
    (X : Mat nin nN) (Y : Mat nout nN) (XV : Mat nin nM) (YV : Mat nout nM) (E B P : ℕ)
    (st : SelState nin nout) (r : (h : ℕ) × Network nin h nout) (hE : 0 < E)
    (hup : ltInf (roundTrain X Y XV YV E B P r) st.best_train_loss) :
    ∃ w, (train r.2 X Y XV YV E B P).best_weights = some w ∧
      getParams (train r.2 X Y XV YV E B P).net = w ∧
      (selectionStep X Y XV YV E B P st r).saved_train_file = some ⟨r.1, w⟩ := by
  obtain ⟨w, hw⟩ := train_best_weights_isSome r.2 X Y XV YV E B P hE
  have hgp := train_getParams_of_best r.2 X Y XV YV E B P w hw
  refine ⟨w, hw, hgp, ?_⟩
  obtain ⟨-, -, -, -, -, -, -, -, -, -, f11⟩ := selectionStep_fields X Y XV YV E B P st r
  rw [f11, if_pos hup, hgp]

/-- Witness for C9 at a concrete round against the initial registry
state (whose best-training loss is infinite). -/
theorem selection_train_file_holds_val_best_witness :
    ∃ w, (train netZero xZero yOne xZero yOne 1 1 5).best_weights = some w ∧
      getParams (train netZero xZero yOne xZero yOne 1 1 5).net = w ∧
      (selectionStep xZero yOne xZero yOne 1 1 5 (initSelState 1 1)
        ⟨1, netZero⟩).saved_train_file = some ⟨1, w⟩ :=
  selection_train_file_holds_val_best xZero yOne xZero yOne 1 1 5 (initSelState 1 1)
    ⟨1, netZero⟩ Nat.one_pos trivial

/-- Derivative of one output entry in one `W2` entry. -/
theorem hasDerivAt_out_setW2 {nin nhid nout nN : ℕ} (net : Network nin nhid nout)
    (x : Mat nin nN) (p : Fin nout) (q : Fin nhid) (p' : Fin nout) (j : Fin nN) :
    HasDerivAt (fun w => forward (setW2 net p q w) x p' j)
      (if p' = p then a1of net x q j else 0) (net.W2 p q) := by
  have hsum : HasDerivAt
      (fun w => ∑ r, (if p' = p ∧ r = q then w else net.W2 p' r) * a1of net x r j)
      (∑ r, if p' = p ∧ r = q then a1of net x r j else 0) (net.W2 p q) := by
    apply HasDerivAt.sum
    intro r _
    by_cases h : p' = p ∧ r = q
    · simp only [if_pos h]
      have h0 := (hasDerivAt_id (net.W2 p q)).mul_const (a1of net x r j)
      rw [one_mul] at h0
      exact h0
    · simp only [if_neg h]
      exact hasDerivAt_const _ _
  have hval : (∑ r, if p' = p ∧ r = q then a1of net x r j else 0)
      = if p' = p then a1of net x q j else 0 := by
    by_cases hp : p' = p
    · simp [hp, Finset.sum_ite_eq']
    · simp [hp]
  rw [hval] at hsum
  exact hsum.add_const (net.b2 p' 0)

/-- Derivative of one output entry in one `b2` entry. -/
theorem hasDerivAt_out_setb2 {nin nhid nout nN : ℕ} (net : Network nin nhid nout)
    (x : Mat nin nN) (p : Fin nout) (p' : Fin nout) (j : Fin nN) :
    HasDerivAt (fun w => forward (setb2 net p w) x p' j)
      (if p' = p then 1 else 0) (net.b2 p 0) := by
  have h : HasDerivAt (fun w : ℝ => (if p' = p then w else net.b2 p' 0))
      (if p' = p then 1 else 0) (net.b2 p 0) := by
    by_cases hp : p' = p
    · simp only [if_pos hp]
      exact hasDerivAt_id _
    · simp only [if_neg hp]
      exact hasDerivAt_const _ _
  exact h.const_add (∑ r, net.W2 p' r * a1of net x r j)

/-- Derivative of one output entry in one `W1` entry. -/
theorem hasDerivAt_out_setW1 {nin nhid nout nN : ℕ} (net : Network nin nhid nout)
    (x : Mat nin nN) (p : Fin nhid) (q : Fin nin) (p' : Fin nout) (j : Fin nN) :
    HasDerivAt (fun w => forward (setW1 net p q w) x p' j)
      (∑ r, net.W2 p' r *
        ((1 - Real.tanh (z1of net x r j) ^ 2) * if r = p then x q j else 0))
      (net.W1 p q) := by
  have hz : ∀ r : Fin nhid, HasDerivAt
      (fun w => (∑ s, (if r = p ∧ s = q then w else net.W1 r s) * x s j) + net.b1 r 0)
      (if r = p then x q j else 0) (net.W1 p q) := by
    intro r
    have hsum : HasDerivAt
        (fun w => ∑ s, (if r = p ∧ s = q then w else net.W1 r s) * x s j)
        (∑ s, if r = p ∧ s = q then x s j else 0) (net.W1 p q) := by
      apply HasDerivAt.sum
      intro s _
      by_cases h : r = p ∧ s = q
      · simp only [if_pos h]
        have h0 := (hasDerivAt_id (net.W1 p q)).mul_const (x s j)
        rw [one_mul] at h0
        exact h0
      · simp only [if_neg h]
        exact hasDerivAt_const _ _
    have hval : (∑ s, if r = p ∧ s = q then x s j else 0) = if r = p then x q j else 0 := by
      by_cases hr : r = p
      · simp [hr, Finset.sum_ite_eq']
      · simp [hr]
    rw [hval] at hsum
    exact hsum.add_const (net.b1 r 0)
  have hzval : ∀ r : Fin nhid,
      ((∑ s, (if r = p ∧ s = q then net.W1 p q else net.W1 r s) * x s j) + net.b1 r 0)
        = z1of net x r j := by
    intro r
    have h : (∑ s, (if r = p ∧ s = q then net.W1 p q else net.W1 r s) * x s j)
        = ∑ s, net.W1 r s * x s j := by
      apply Finset.sum_congr rfl
      intro s _
      by_cases h : r = p ∧ s = q
      · rw [if_pos h, h.1, h.2]
      · rw [if_neg h]
    rw [h]
    rfl
  have htanh : ∀ r : Fin nhid, HasDerivAt
      (fun w => Real.tanh
        ((∑ s, (if r = p ∧ s = q then w else net.W1 r s) * x s j) + net.b1 r 0))
      ((1 - Real.tanh (z1of net x r j) ^ 2) * if r = p then x q j else 0)
      (net.W1 p q) := by
    intro r
    have h1 := hasDerivAt_tanh (z1of net x r j)
    rw [← hzval r] at h1
    have h2 := h1.comp (net.W1 p q) (hz r)
    rw [hzval r] at h2
    exact h2
  have hosum : HasDerivAt
      (fun w => ∑ r, net.W2 p' r * Real.tanh
        ((∑ s, (if r = p ∧ s = q then w else net.W1 r s) * x s j) + net.b1 r 0))
      (∑ r, net.W2 p' r *
        ((1 - Real.tanh (z1of net x r j) ^ 2) * if r = p then x q j else 0))
      (net.W1 p q) := by
    apply HasDerivAt.sum
    intro r _
    exact (htanh r).const_mul (net.W2 p' r)
  exact hosum.add_const (net.b2 p' 0)

/-- Derivative of one output entry in one `b1` entry. -/
theorem hasDerivAt_out_setb1 {nin nhid nout nN : ℕ} (net : Network nin nhid nout)
    (x : Mat nin nN) (p : Fin nhid) (p' : Fin nout) (j : Fin nN) :
    HasDerivAt (fun w => forward (setb1 net p w) x p' j)
      (∑ r, net.W2 p' r *
        ((1 - Real.tanh (z1of net x r j) ^ 2) * if r = p then 1 else 0))
      (net.b1 p 0) := by
  have hz : ∀ r : Fin nhid, HasDerivAt
      (fun w => (∑ s, net.W1 r s * x s j) + (if r = p then w else net.b1 r 0))
      (if r = p then 1 else 0) (net.b1 p 0) := by
    intro r
    have h : HasDerivAt (fun w : ℝ => (if r = p then w else net.b1 r 0))
        (if r = p then 1 else 0) (net.b1 p 0) := by
      by_cases hr : r = p
      · simp only [if_pos hr]
        exact hasDerivAt_id _
      · simp only [if_neg hr]
        exact hasDerivAt_const _ _
    exact h.const_add (∑ s, net.W1 r s * x s j)
  have hzval : ∀ r : Fin nhid,
      ((∑ s, net.W1 r s * x s j) + (if r = p then net.b1 p 0 else net.b1 r 0))
        = z1of net x r j := by
    intro r
    by_cases hr : r = p
    · rw [if_pos hr, hr]
      rfl
    · rw [if_neg hr]
      rfl
  have htanh : ∀ r : Fin nhid, HasDerivAt
      (fun w => Real.tanh ((∑ s, net.W1 r s * x s j) + (if r = p then w else net.b1 r 0)))
      ((1 - Real.tanh (z1of net x r j) ^ 2) * if r = p then 1 else 0)
      (net.b1 p 0) := by
    intro r
    have h1 := hasDerivAt_tanh (z1of net x r j)
    rw [← hzval r] at h1
    have h2 := h1.comp (net.b1 p 0) (hz r)
    rw [hzval r] at h2
    exact h2
  have hosum : HasDerivAt
      (fun w => ∑ r, net.W2 p' r * Real.tanh
        ((∑ s, net.W1 r s * x s j) + (if r = p then w else net.b1 r 0)))
      (∑ r, net.W2 p' r *
        ((1 - Real.tanh (z1of net x r j) ^ 2) * if r = p then 1 else 0))
      (net.b1 p 0) := by
    apply HasDerivAt.sum
    intro r _
    exact (htanh r).const_mul (net.W2 p' r)
  exact hosum.add_const (net.b2 p' 0)

/-- If every output entry, as a function of one scalar parameter, has
derivative `S p j` and value `forward net x p j` at `w0`, then the
halved loss of the modified network has derivative
`(Σ_j Σ_p dz2_pj · S_pj)/N` at `w0`. -/
theorem hasDerivAt_lossHalf_of_out {nin nhid nout nN : ℕ} (net : Network nin nhid nout)
    (x : Mat nin nN) (y : Mat nout nN)
    (F : Fin nout → Fin nN → ℝ → ℝ) (S : Fin nout → Fin nN → ℝ) (w0 : ℝ)
    (hF : ∀ p j, HasDerivAt (F p j) (S p j) w0)
    (hval : ∀ p j, F p j w0 = forward net x p j) :
    HasDerivAt (fun w => (∑ j, ∑ p, (F p j w - y p j) ^ 2) / (2 * (nN : ℝ)))
      ((∑ j, ∑ p, dz2of net x y p j * S p j) / (nN : ℝ)) w0 := by
  have h1 : ∀ (p : Fin nout) (j : Fin nN), HasDerivAt (fun w => (F p j w - y p j) ^ 2)
      (2 * (forward net x p j - y p j) * S p j) w0 := by
    intro p j
    have h := ((hF p j).sub_const (y p j)).pow 2
    rw [hval p j] at h
    convert h using 1
    push_cast
    ring
  have h2 : HasDerivAt (fun w => ∑ j, ∑ p, (F p j w - y p j) ^ 2)
      (∑ j, ∑ p, 2 * (forward net x p j - y p j) * S p j) w0 := by
    apply HasDerivAt.sum
    intro j _
    apply HasDerivAt.sum
    intro p _
    exact h1 p j
  have h3 := h2.div_const (2 * (nN : ℝ))
  convert h3 using 1
  have hsum : (∑ j, ∑ p, 2 * (forward net x p j - y p j) * S p j)
      = 2 * ∑ j, ∑ p, dz2of net x y p j * S p j := by
    rw [Finset.mul_sum]
    apply Finset.sum_congr rfl
    intro j _
    rw [Finset.mul_sum]
    apply Finset.sum_congr rfl
    intro p _
    simp only [dz2of, Matrix.sub_apply]
    ring
  rw [hsum]
  rcases eq_or_ne ((nN : ℝ)) 0 with hz | hz
  · rw [hz]
    simp
  · rw [mul_div_mul_left _ _ (two_ne_zero)]

/-- C4 amended: for every input batch `x` and target batch `y`,
`backward`'s analytic gradients (`dz2 = output − y`, chain rule through
`tanh` via `1 − a1²`, averaged over the batch size `N`) are exactly the
true gradients — entrywise derivatives — of the halved loss
`(1/(2N))·Σ_j ‖out_j − y_j‖²`, for every entry of all four parameter
tensors.  (They are *not* the gradients of the program's
`mean_squared_error`; see the counterexample.) -/
theorem backward_grads_are_halfloss_gradients {nin nhid nout nN : ℕ}
    (net : Network nin nhid nout) (x : Mat nin nN) (y : Mat nout nN) :
    (∀ p q, HasDerivAt (fun w => lossHalf (setW1 net p q w) x y)
      (dW1of net x y p q) (net.W1 p q)) ∧
    (∀ p, HasDerivAt (fun w => lossHalf (setb1 net p w) x y)
      (db1of net x y p 0) (net.b1 p 0)) ∧
    (∀ p q, HasDerivAt (fun w => lossHalf (setW2 net p q w) x y)
      (dW2of net x y p q) (net.W2 p q)) ∧
    (∀ p, HasDerivAt (fun w => lossHalf (setb2 net p w) x y)
      (db2of net x y p 0) (net.b2 p 0)) := by
  refine ⟨?_, ?_, ?_, ?_⟩
  · intro p q
    have h := hasDerivAt_lossHalf_of_out net x y
      (fun p' j w => forward (setW1 net p q w) x p' j)
      (fun p' j => ∑ r, net.W2 p' r *
        ((1 - Real.tanh (z1of net x r j) ^ 2) * if r = p then x q j else 0))
      (net.W1 p q)
      (fun p' j => hasDerivAt_out_setW1 net x p q p' j)
      (fun p' j => by
        show forward (setW1 net p q (net.W1 p q)) x p' j = forward net x p' j
        rw [setW1_self])
    have hj : ∀ j : Fin nN, (∑ p', dz2of net x y p' j * ∑ r, net.W2 p' r *
        ((1 - Real.tanh (z1of net x r j) ^ 2) * if r = p then x q j else 0))
        = dz1of net x y p j * x q j := by
      intro j
      have hinner : ∀ p' : Fin nout, (∑ r, net.W2 p' r *
          ((1 - Real.tanh (z1of net x r j) ^ 2) * if r = p then x q j else 0))
          = net.W2 p' p * ((1 - Real.tanh (z1of net x p j) ^ 2) * x q j) := by
        intro p'
        simp [mul_ite, mul_zero, Finset.sum_ite_eq']
      rw [Finset.sum_congr rfl (fun p' _ => by rw [hinner p'])]
      simp only [dz1of, Matrix.mul_apply, Matrix.transpose_apply, a1of, tanhM]
      rw [Finset.sum_mul, Finset.sum_mul]
      apply Finset.sum_congr rfl
      intro p' _
      ring
    have heq : (∑ j, ∑ p', dz2of net x y p' j * ∑ r, net.W2 p' r *
        ((1 - Real.tanh (z1of net x r j) ^ 2) * if r = p then x q j else 0)) / (nN : ℝ)
        = dW1of net x y p q := by
      rw [Finset.sum_congr rfl (fun j _ => hj j)]
      simp only [dW1of, Matrix.smul_apply, Matrix.mul_apply, Matrix.transpose_apply,
        smul_eq_mul]
      rw [div_eq_mul_inv, one_div]
      exact mul_comm _ _
    rw [heq] at h
    exact h
  · intro p
    have h := hasDerivAt_lossHalf_of_out net x y
      (fun p' j w => forward (setb1 net p w) x p' j)
      (fun p' j => ∑ r, net.W2 p' r *
        ((1 - Real.tanh (z1of net x r j) ^ 2) * if r = p then 1 else 0))
      (net.b1 p 0)
      (fun p' j => hasDerivAt_out_setb1 net x p p' j)
      (fun p' j => by
        show forward (setb1 net p (net.b1 p 0)) x p' j = forward net x p' j
        rw [setb1_self])
    have hj : ∀ j : Fin nN, (∑ p', dz2of net x y p' j * ∑ r, net.W2 p' r *
        ((1 - Real.tanh (z1of net x r j) ^ 2) * if r = p then 1 else 0))
        = dz1of net x y p j := by
      intro j
      have hinner : ∀ p' : Fin nout, (∑ r, net.W2 p' r *
          ((1 - Real.tanh (z1of net x r j) ^ 2) * if r = p then 1 else 0))
          = net.W2 p' p * ((1 - Real.tanh (z1of net x p j) ^ 2) * 1) := by
        intro p'
        simp [mul_ite, mul_zero, Finset.sum_ite_eq']
      rw [Finset.sum_congr rfl (fun p' _ => by rw [hinner p'])]
      simp only [dz1of, Matrix.mul_apply, Matrix.transpose_apply, a1of, tanhM]
      rw [Finset.sum_mul]
      apply Finset.sum_congr rfl
      intro p' _
      ring
    have heq : (∑ j, ∑ p', dz2of net x y p' j * ∑ r, net.W2 p' r *
        ((1 - Real.tanh (z1of net x r j) ^ 2) * if r = p then 1 else 0)) / (nN : ℝ)
        = db1of net x y p 0 := by
      rw [Finset.sum_congr rfl (fun j _ => hj j)]
      simp only [db1of]
      rw [div_eq_mul_inv, one_div]
      exact mul_comm _ _
    rw [heq] at h
    exact h
  · intro p q
    have h := hasDerivAt_lossHalf_of_out net x y
      (fun p' j w => forward (setW2 net p q w) x p' j)
      (fun p' j => if p' = p then a1of net x q j else 0)
      (net.W2 p q)
      (fun p' j => hasDerivAt_out_setW2 net x p q p' j)
      (fun p' j => by
        show forward (setW2 net p q (net.W2 p q)) x p' j = forward net x p' j
        rw [setW2_self])
    have heq : (∑ j, ∑ p', dz2of net x y p' j * if p' = p then a1of net x q j else 0)
        / (nN : ℝ) = dW2of net x y p q := by
      have hj : ∀ j : Fin nN,
          (∑ p', dz2of net x y p' j * if p' = p then a1of net x q j else 0)
          = dz2of net x y p j * a1of net x q j := by
        intro j
        simp [mul_ite, mul_zero, Finset.sum_ite_eq']
      rw [Finset.sum_congr rfl (fun j _ => hj j)]
      simp only [dW2of, Matrix.smul_apply, Matrix.mul_apply, Matrix.transpose_apply,
        smul_eq_mul]
      rw [div_eq_mul_inv, one_div]
      exact mul_comm _ _
    rw [heq] at h
    exact h
  · intro p
    have h := hasDerivAt_lossHalf_of_out net x y
      (fun p' j w => forward (setb2 net p w) x p' j)
      (fun p' j => if p' = p then 1 else 0)
      (net.b2 p 0)
      (fun p' j => hasDerivAt_out_setb2 net x p p' j)
      (fun p' j => by
        show forward (setb2 net p (net.b2 p 0)) x p' j = forward net x p' j
        rw [setb2_self])
    have heq : (∑ j, ∑ p', dz2of net x y p' j * if p' = p then (1 : ℝ) else 0)
        / (nN : ℝ) = db2of net x y p 0 := by
      have hj : ∀ j : Fin nN,
          (∑ p', dz2of net x y p' j * if p' = p then (1 : ℝ) else 0)
          = dz2of net x y p j := by
        intro j
        simp [mul_ite, mul_zero, mul_one, Finset.sum_ite_eq']
      rw [Finset.sum_congr rfl (fun j _ => hj j)]
      simp only [db2of]
      rw [div_eq_mul_inv, one_div]
      exact mul_comm _ _
    rw [heq] at h
    exact h

/-- C4 counterexample: at a concrete fresh 1×1×1 network (all
parameters zero), input batch `x = [0]` and target `y = [1]`,
`backward`'s analytic `db2` entry is −1 while the derivative of the
program's `mean_squared_error` loss in that same parameter entry is −2,
so the analytic gradients are not the true gradients of the
mean-squared-error loss. -/
theorem backward_grad_is_not_mse_gradient :
    db2of netZero xZero yOne 0 0 = -1 ∧
    HasDerivAt (fun b => mse yOne (forward (setb2 netZero 0 b) xZero)) (-2)
      (netZero.b2 0 0) ∧
    (-1 : ℝ) ≠ -2 := by
  refine ⟨?_, ?_, by norm_num⟩
  · simp [db2of, dz2of, forward, a1of, z1of, tanhM, bcast, netZero, mkNetwork, xZero, yOne,
      Matrix.sub_apply, Matrix.add_apply, Matrix.mul_apply, Matrix.zero_apply,
      Fin.sum_univ_one, Real.tanh_zero]
  · have hfun : (fun b => mse yOne (forward (setb2 netZero 0 b) xZero))
        = fun b => (1 - b) ^ 2 := by
      funext b
      simp [mse, forward, a1of, z1of, tanhM, bcast, setb2, netZero, mkNetwork, xZero, yOne,
        Matrix.add_apply, Matrix.mul_apply, Matrix.zero_apply, Fin.sum_univ_one,
        Real.tanh_zero]
    rw [hfun]
    have h := (HasDerivAt.const_sub (1 : ℝ) (hasDerivAt_id (0 : ℝ))).pow 2
    have h2 : HasDerivAt (fun b : ℝ => (1 - b) ^ 2) (-2) 0 := by
      convert h using 1
      norm_num
    exact h2

/-- Witness for C7's amended theorem at a concrete well-formed network
and a matching input. -/
theorem forward_fails_only_on_input_row_mismatch_witness :
    wfNet dnet7 ∧ ((dynForward dnet7 m11).isSome ↔ m11.rows = dnet7.input_size) :=
  ⟨⟨rfl, rfl, rfl, rfl, rfl, rfl, rfl, rfl⟩,
    forward_fails_only_on_input_row_mismatch dnet7 m11
      ⟨rfl, rfl, rfl, rfl, rfl, rfl, rfl, rfl⟩⟩

end TrainPy

